import Mathlib

/-!
Verification development for the Azure bill-of-materials cost calculator
(`azure_bom_costing`).  The Python modules relevant to the price resolution
engine are shallowly embedded below: pure helpers become Lean functions,
the paginated downloader becomes an explicit state machine over an abstract
page sequence, machine `Decimal` arithmetic is modelled over `ℚ` (Python
`Decimal` multiplication and comparison on finite values are exact), and
fallible operations return `Option`/`Except`.
-/

namespace AzureBom

/-! ## String helpers shared across the embedding

Python string operations used by the source: `.lower()`, `.strip()`,
`.replace(",", "")`, substring test (`in`), and `str.startswith`.
All source inputs of interest are ASCII, where `Char.toLower` agrees with
Python `str.lower`.
-/

/-- Python `s.lower()` (ASCII fragment). -/
def pyLower (s : String) : String := ⟨s.toList.map Char.toLower⟩

/-- Whitespace trim at both ends of a char list. -/
def trimChars (cs : List Char) : List Char :=
  ((cs.dropWhile Char.isWhitespace).reverse.dropWhile Char.isWhitespace).reverse

/-- Python `s.strip()` (whitespace trim at both ends). -/
def pyStrip (s : String) : String := ⟨trimChars s.toList⟩

/-- Python `s.replace(",", "")`. -/
def removeCommas (s : String) : String :=
  ⟨s.toList.filter (fun c => c ≠ ',')⟩

/-- `listStartsWith ned hay` is true when `ned` is an initial segment of `hay`. -/
def listStartsWith : List Char → List Char → Bool
  | [], _ => true
  | _ :: _, [] => false
  | n :: ns, h :: hs => n = h && listStartsWith ns hs

/-- Python `needle in haystack` on char lists (substring occurrence). -/
def listContainsSub (ned : List Char) : List Char → Bool
  | [] => listStartsWith ned []
  | h :: hs => listStartsWith ned (h :: hs) || listContainsSub ned hs

/-- Python `needle in haystack` on strings. -/
def strContainsSub (hay ned : String) : Bool :=
  listContainsSub ned.toList hay.toList

/-- Python `s.startswith(p)`. -/
def strStartsWith (s p : String) : Bool := listStartsWith p.toList s.toList

/-! ## Python falsiness helpers

Python `a or b` on optional strings treats `None` and the empty string as
falsy; on optional numbers it also treats `0` as falsy.  These helpers model
the `or`-chains that appear throughout the source.
-/

/-- Truthiness filter for an optional string: `None` and `""` are falsy. -/
def truthyS : Option String → Option String
  | none => none
  | some s => if s = "" then none else some s

/-- Python `x or y` where `x y` are optional strings. -/
def pyOrS (x y : Option String) : Option String :=
  match truthyS x with
  | some s => some s
  | none => y

/-- Python `x or d` where `x` is an optional string and `d` a string default. -/
def pyOrSD (x : Option String) (d : String) : String :=
  match truthyS x with
  | some s => s
  | none => d

/-- Truthiness filter for an optional rational: `None` and `0` are falsy. -/
def truthyQ : Option ℚ → Option ℚ
  | none => none
  | some q => if q = 0 then none else some q

/-- Python `x or 0` on an optional number (used as `row.get(k) or 0`). -/
def pyOrQ0 (x : Option ℚ) : ℚ :=
  match truthyQ x with
  | some q => q
  | none => 0

/-! ## Model of Python `Decimal` string parsing (`helpers/math.py`)

`Decimal(str(val))` accepts an optional sign, a digit string with an
optional fractional part, an optional exponent, and the special values
`NaN` and `Infinity` (leading/trailing whitespace stripped).  `DecVal`
represents the result: a finite rational, a signed infinity, or NaN.
-/

inductive DecVal where
  | fin (q : ℚ)
  | inf (positive : Bool)
  | nan
deriving DecidableEq, Repr

/-- Digits of a char list interpreted in base 10 (chars must be digits). -/
def digitsToNat (ds : List Char) : Nat :=
  ds.foldl (fun acc c => acc * 10 + (c.toNat - 48)) 0

/-- Split a leading run of decimal digits. -/
def takeDigits (cs : List Char) : List Char × List Char :=
  match cs with
  | [] => ([], [])
  | c :: rest =>
      if c.isDigit then
        let (ds, rs) := takeDigits rest
        (c :: ds, rs)
      else ([], c :: rest)

theorem takeDigits_sublen (cs : List Char) : (takeDigits cs).2.length ≤ cs.length := by
  induction cs with
  | nil => simp [takeDigits]
  | cons c rest ih =>
      simp only [takeDigits]
      by_cases h : c.isDigit
      · simp only [h, if_pos, if_true]
        have : (takeDigits rest).2.length ≤ rest.length := ih
        simpa using Nat.le_succ_of_le this
      · simp [h]

/-- Parse the exponent part `[eE][+-]?digits`; returns the signed exponent,
`none` when the syntax is invalid.  An absent exponent is exponent `0`. -/
def parseExponent (cs : List Char) : Option ℤ :=
  match cs with
  | [] => some 0
  | e :: rest =>
      if e.toLower = 'e' then
        let (sgn, rest2) :=
          match rest with
          | '+' :: r => ((1 : ℤ), r)
          | '-' :: r => ((-1 : ℤ), r)
          | r => ((1 : ℤ), r)
        let (ds, rest3) := takeDigits rest2
        if ds = [] ∨ rest3 ≠ [] then none
        else some (sgn * (digitsToNat ds : ℤ))
      else none

/-- Parse the unsigned numeric body `digits[.digits][exp]` of a decimal
numeric string.  At least one digit must be present in the mantissa. -/
def parseBody (cs : List Char) : Option ℚ :=
  let (ipart, rest) := takeDigits cs
  let (fpart, rest2) :=
    match rest with
    | '.' :: r => takeDigits r
    | r => ([], r)
  if ipart = [] ∧ fpart = [] then none
  else
    match parseExponent rest2 with
    | none => none
    | some e =>
        let mantissa : ℚ := (digitsToNat ipart : ℚ) +
          (digitsToNat fpart : ℚ) / ((10 : ℚ) ^ fpart.length)
        some (mantissa * (10 : ℚ) ^ (e : ℤ))

/-- Case-insensitive match of a char list against an ASCII keyword. -/
def ciIs (cs : List Char) (kw : String) : Bool :=
  (cs.map Char.toLower) = kw.toList

/-- Model of the Python `Decimal` constructor on a string: strips whitespace,
reads an optional sign, then either a special value (`NaN` / `Infinity`)
or a finite numeric body.  Returns `none` for invalid numeric strings
(where the constructor raises `InvalidOperation`). -/
def parseDecimal (s : String) : Option DecVal :=
  let cs := trimChars s.toList
  let (neg, body) :=
    match cs with
    | '+' :: r => (false, r)
    | '-' :: r => (true, r)
    | r => (false, r)
  if ciIs body "nan" then some DecVal.nan
  else if ciIs body "inf" ∨ ciIs body "infinity" then some (DecVal.inf (!neg))
  else
    match parseBody body with
    | some q => some (DecVal.fin (if neg then -q else q))
    | none => none

/-- `decimal(s)` from `helpers/math.py`, restricted to its finite fragment:
parse failures and the non-finite values (`NaN`, `Infinity`) yield the
default `0`.  Used only where the argument is one of the finite literals
appearing in `apply_optimisations` (`"0.18"`, `"0.35"`), on which it agrees
with `decimalD`; everywhere the non-finite values matter the full
`decimalD` model is used instead. -/
def decimalQ (s : String) : ℚ :=
  match parseDecimal s with
  | some (DecVal.fin q) => q
  | _ => 0

end AzureBom

namespace AzureBom

/-! ## Unit normalizer (`helpers.py` / `handlers/common.py`, `_per_count_from_text`)

Detects an implicit batch size from the unit-of-measure string and, failing
that, from the concatenated meter/product/sku text.  Mirrors the source:
literal markers are checked first (100000/100k, then 10000/10k, then
1000/1k), then the regex `per \s+ digits \s* k?`; Python `or` treats both
`None` and `0` as falsy.
-/

/-- The descriptive fields of an item consulted by the normalizer,
with the `item.get(key, "")` default already applied. -/
structure MiniItem where
  meterName : String
  productName : String
  skuName : String
deriving DecidableEq, Repr

/-- Truthiness filter on an optional count: `None` and `0` are falsy. -/
def truthyN : Option Nat → Option Nat
  | none => none
  | some n => if n = 0 then none else some n

/-- Python `x or y` on optional counts. -/
def pyOrN (x y : Option Nat) : Option Nat :=
  match truthyN x with
  | some n => some n
  | none => y

/-- Split a leading run of whitespace. -/
def takeSpaces (cs : List Char) : List Char × List Char :=
  match cs with
  | [] => ([], [])
  | c :: rest =>
      if c.isWhitespace then
        let (ws, rs) := takeSpaces rest
        (c :: ws, rs)
      else ([], c :: rest)

/-- Attempt the regex `per\s+(\d+)\s*(k)?` at the head of the char list,
returning the scaled count on a match. -/
def matchPerAt (cs : List Char) : Option Nat :=
  match cs with
  | 'p' :: 'e' :: 'r' :: rest =>
      let (ws, rest2) := takeSpaces rest
      if ws = [] then none
      else
        let (ds, rest3) := takeDigits rest2
        if ds = [] then none
        else
          let (_, rest4) := takeSpaces rest3
          let hasK := match rest4 with
            | 'k' :: _ => true
            | _ => false
          some (digitsToNat ds * (if hasK then 1000 else 1))
  | _ => none

/-- `re.search` for the pattern above: first position (left to right) where
the match succeeds. -/
def perSearch : List Char → Option Nat
  | [] => matchPerAt []
  | c :: rest =>
      match matchPerAt (c :: rest) with
      | some n => some n
      | none => perSearch rest

/-- The inner `detect` of `_per_count_from_text`: literal batch markers in
order, then the `per N k?` regex. -/
def detect (t : String) : Option Nat :=
  if strContainsSub t "100000" || strContainsSub t "100k" then some 100000
  else if strContainsSub t "10000" || strContainsSub t "10k" then some 10000
  else if strContainsSub t "1000" || strContainsSub t "1k" then some 1000
  else perSearch t.toList

/-- `_per_count_from_text(uom, item)`: batch size as a `Decimal`. -/
def perCountFromText (uom : String) (item : MiniItem) : ℚ :=
  let s := removeCommas (pyLower uom)
  let txt := removeCommas (pyLower
    (item.meterName ++ " " ++ item.productName ++ " " ++ item.skuName))
  let n := pyOrN (detect s) (detect txt)
  match truthyN n with
  | some m => (m : ℚ)
  | none => 1

end AzureBom

namespace AzureBom

/-- Claim C3: the unit normalizer returns 10000 for unit text "10,000",
100000 for "100k", 10000 for "per 10k", and 1 for the empty string; the
unit-of-measure text is consulted before the concatenated descriptive text
(any non-zero detection on the former decides the result); when neither
text yields a (truthy) detection the result is 1; and within a text the
literal markers win over the regex, illustrated by "per 2 10k" where the
literal 10k marker beats the regex match "per 2". -/
theorem claim_C3 :
    perCountFromText "10,000" ⟨"", "", ""⟩ = 10000 ∧
    perCountFromText "100k" ⟨"", "", ""⟩ = 100000 ∧
    perCountFromText "per 10k" ⟨"", "", ""⟩ = 10000 ∧
    perCountFromText "" ⟨"", "", ""⟩ = 1 ∧
    (∀ (uom : String) (item : MiniItem) (n : Nat),
      detect (removeCommas (pyLower uom)) = some n → n ≠ 0 →
      perCountFromText uom item = (n : ℚ)) ∧
    (∀ (uom : String) (item : MiniItem),
      truthyN (detect (removeCommas (pyLower uom))) = none →
      truthyN (detect (removeCommas (pyLower
        (item.meterName ++ " " ++ item.productName ++ " " ++ item.skuName)))) = none →
      perCountFromText uom item = 1) ∧
    perCountFromText "100k" ⟨"10k", "", ""⟩ = 100000 ∧
    perCountFromText "per 2 10k" ⟨"", "", ""⟩ = 10000 := by
  refine ⟨by decide, by decide, by decide, by decide, ?_, ?_, by decide, by decide⟩
  · intro uom item n h hn
    simp [perCountFromText, pyOrN, truthyN, h, hn]
  · intro uom item h1 h2
    simp only [perCountFromText, pyOrN, h1]
    simp [h2]

/-- Witness for claim C3: the hypothesised conjuncts applied at concrete
inputs. -/
theorem claim_C3_witness :
    perCountFromText "100k" ⟨"", "", ""⟩ = ((100000 : Nat) : ℚ) ∧
    perCountFromText "zz" ⟨"", "", ""⟩ = 1 := by
  refine ⟨?_, ?_⟩
  · exact claim_C3.2.2.2.2.1 "100k" ⟨"", "", ""⟩ 100000 (by decide) (by decide)
  · exact claim_C3.2.2.2.2.2.1 "zz" ⟨"", "", ""⟩ (by decide) (by decide)

end AzureBom

namespace AzureBom

/-! ## Catalog row cleaning (`helpers/csv.py`)

Arbitrary source records are dict-like maps from strings to Python values.
`Val` models the value universe the cleaner distinguishes: `None`, strings,
non-scalar values (lists/dicts, abstracted by their compact JSON encoding),
and callables.  Numbers and other scalars behave exactly like the string
`str(v)` produces, so they are represented through `vStr`.
-/

inductive Val where
  | vNone
  | vStr (s : String)
  | vJson (enc : String)
  | vCallable
deriving DecidableEq, Repr

/-- Python `str(v)` on a `Val` (the JSON abstraction keeps its encoding;
the textual form of a callable is abstracted by a fixed token). -/
def strOfVal : Val → String
  | Val.vNone => "None"
  | Val.vStr s => s
  | Val.vJson e => e
  | Val.vCallable => "<callable>"

/-- An input record: association list from keys to values (`dict`). -/
def InRow : Type := List (String × Val)

/-- Python `r.get(k)` (missing key gives `None`). -/
def inGet (r : InRow) (k : String) : Val :=
  match List.find? (fun p => p.1 = k) r with
  | some p => p.2
  | none => Val.vNone

/-- `pick_first_dict(d, *keys)`: first key whose value is neither `None`
nor the empty string. -/
def pickFirstDict (r : InRow) : List String → Option Val
  | [] => none
  | k :: ks =>
      let v := inGet r k
      if v = Val.vNone ∨ v = Val.vStr "" then pickFirstDict r ks else some v

/-- `_to_scalar(v)`: CSV-safe scalar of a value. -/
def toScalar : Val → Option String
  | Val.vNone => none
  | Val.vStr s => if s = "" then none else some s
  | Val.vJson e => some e
  | Val.vCallable => none

/-- `_to_scalar` applied to a field that may be absent (`None`). -/
def toScalarOpt : Option Val → Option String
  | none => none
  | some v => toScalar v

/-- `arm_region(s)`: strip, lowercase, drop spaces. -/
def armRegion (s : String) : String :=
  ⟨((trimChars s.toList).map Char.toLower).filter (fun c => c ≠ ' ')⟩

/-- The canonical cleaned row: exactly the `ALLOWED_HEADINGS` fields,
every value a string or `None`. -/
structure CRow where
  serviceName : Option String
  productName : Option String
  skuName : Option String
  meterName : Option String
  unitOfMeasure : Option String
  retailPrice : Option String
  currencyCode : Option String
  armRegionName : Option String
  priceType : Option String
  effectiveStartDate : Option String
  meterId : Option String
  skuId : Option String
  productId : Option String
  effectiveEndDate : Option String
  unitPrice : Option String
  serviceId : Option String
  location : Option String
  savingsPlan : Option String
  isPrimaryMeterRegion : Option String
  serviceFamily : Option String
  type : Option String
  reservationTerm : Option String
  armSkuName : Option String
  tierMinimumUnits : Option String
deriving DecidableEq, Repr

/-- `ALLOWED_HEADINGS` in source order. -/
def allowedHeadings : List String :=
  ["serviceName", "productName", "skuName", "meterName", "unitOfMeasure",
   "retailPrice", "currencyCode", "armRegionName", "priceType", "effectiveStartDate",
   "meterId", "skuId", "productId", "effectiveEndDate", "unitPrice",
   "serviceId", "location", "savingsPlan", "isPrimaryMeterRegion", "serviceFamily",
   "type", "reservationTerm", "armSkuName", "tierMinimumUnits"]

/-- The emitted dict of a cleaned row, in `ALLOWED_HEADINGS` order. -/
def toPairs (c : CRow) : List (String × Option String) :=
  [("serviceName", c.serviceName), ("productName", c.productName),
   ("skuName", c.skuName), ("meterName", c.meterName),
   ("unitOfMeasure", c.unitOfMeasure), ("retailPrice", c.retailPrice),
   ("currencyCode", c.currencyCode), ("armRegionName", c.armRegionName),
   ("priceType", c.priceType), ("effectiveStartDate", c.effectiveStartDate),
   ("meterId", c.meterId), ("skuId", c.skuId), ("productId", c.productId),
   ("effectiveEndDate", c.effectiveEndDate), ("unitPrice", c.unitPrice),
   ("serviceId", c.serviceId), ("location", c.location),
   ("savingsPlan", c.savingsPlan), ("isPrimaryMeterRegion", c.isPrimaryMeterRegion),
   ("serviceFamily", c.serviceFamily), ("type", c.type),
   ("reservationTerm", c.reservationTerm), ("armSkuName", c.armSkuName),
   ("tierMinimumUnits", c.tierMinimumUnits)]

/-- Truthiness filter on an optional value (`None` and `""` falsy). -/
def truthyV : Option Val → Option Val
  | none => none
  | some v => if v = Val.vNone ∨ v = Val.vStr "" then none else some v

/-- Python `x or y` on optional values. -/
def pyOrV (x y : Option Val) : Option Val :=
  match truthyV x with
  | some v => some v
  | none => y

/-- `_clean_row_to_allowed(r)`: map source column variants into the
canonical schema, sync the two price fields, and scalarise everything. -/
def cleanRowToAllowed (r : InRow) : CRow :=
  let armRegionVal := pickFirstDict r ["armRegionName", "ArmRegionName"]
  let regionFallback := pickFirstDict r ["Region", "Location"]
  let armRegionName :=
    match pyOrV armRegionVal regionFallback with
    | some v => some (Val.vStr (armRegion (strOfVal v)))
    | none => none
  let unitPrice0 := pickFirstDict r
    ["unitPrice", "UnitPrice", "DiscountedPrice", "EffectiveUnitPrice"]
  let retailPrice0 := pickFirstDict r ["retailPrice", "RetailPrice"]
  let unitPrice1 :=
    if unitPrice0 = none ∧ retailPrice0 ≠ none then retailPrice0 else unitPrice0
  let retailPrice1 :=
    if retailPrice0 = none ∧ unitPrice1 ≠ none then unitPrice1 else retailPrice0
  { serviceName := toScalarOpt (pickFirstDict r ["serviceName", "ServiceName", "ProductName"])
    productName := toScalarOpt (pickFirstDict r ["productName", "ProductName"])
    skuName := toScalarOpt (pickFirstDict r ["skuName", "SkuName"])
    meterName := toScalarOpt (pickFirstDict r ["meterName", "MeterName"])
    armSkuName := toScalarOpt (pickFirstDict r ["armSkuName", "ArmSkuName"])
    location := toScalarOpt (pickFirstDict r ["Location", "location"])
    armRegionName := toScalarOpt armRegionName
    unitOfMeasure := toScalarOpt (pickFirstDict r
      ["unitOfMeasure", "UnitOfMeasure", "UnitOfMeasureDisplay"])
    unitPrice := toScalarOpt unitPrice1
    retailPrice := toScalarOpt retailPrice1
    currencyCode := toScalarOpt (pickFirstDict r ["currencyCode", "CurrencyCode", "Currency"])
    priceType := toScalarOpt (pickFirstDict r ["priceType", "PriceType"])
    effectiveStartDate := toScalarOpt (pickFirstDict r
      ["effectiveStartDate", "EffectiveStartDate"])
    effectiveEndDate := toScalarOpt (pickFirstDict r ["effectiveEndDate", "EffectiveEndDate"])
    meterId := toScalarOpt (pickFirstDict r ["meterId", "MeterId"])
    skuId := toScalarOpt (pickFirstDict r ["skuId", "SkuId"])
    productId := toScalarOpt (pickFirstDict r ["productId", "ProductId"])
    serviceId := toScalarOpt (pickFirstDict r ["serviceId", "ServiceId"])
    savingsPlan := toScalarOpt (pickFirstDict r ["savingsPlan", "SavingsPlan"])
    isPrimaryMeterRegion := toScalarOpt (pickFirstDict r
      ["isPrimaryMeterRegion", "IsPrimaryMeterRegion"])
    serviceFamily := toScalarOpt (pickFirstDict r ["serviceFamily", "ServiceFamily"])
    type := toScalarOpt (pickFirstDict r ["type", "Type"])
    reservationTerm := toScalarOpt (pickFirstDict r ["reservationTerm", "ReservationTerm"])
    tierMinimumUnits := toScalarOpt (pickFirstDict r
      ["tierMinimumUnits", "TierMinimumUnits"]) }

/-- `clean_rows(rows)`. -/
def cleanRows (rows : List InRow) : List CRow :=
  rows.map cleanRowToAllowed

end AzureBom

namespace AzureBom

theorem pickFirstDict_not_blank (r : InRow) :
    ∀ (ks : List String) (v : Val), pickFirstDict r ks = some v →
      v ≠ Val.vNone ∧ v ≠ Val.vStr "" := by
  intro ks
  induction ks with
  | nil => intro v h; simp [pickFirstDict] at h
  | cons k ks ih =>
      intro v h
      simp only [pickFirstDict] at h
      by_cases hb : inGet r k = Val.vNone ∨ inGet r k = Val.vStr ""
      · rw [if_pos hb] at h; exact ih v h
      · rw [if_neg hb] at h
        cases h
        exact ⟨fun h1 => hb (Or.inl h1), fun h2 => hb (Or.inr h2)⟩

theorem toScalar_of_not_blank (v : Val) (h1 : v ≠ Val.vNone) (h2 : v ≠ Val.vStr "")
    (h3 : v ≠ Val.vCallable) : ∃ s, toScalar v = some s := by
  cases v with
  | vNone => exact absurd rfl h1
  | vStr s =>
      refine ⟨s, ?_⟩
      simp only [toScalar]
      rw [if_neg]
      intro hs
      exact h2 (by rw [hs])
  | vJson e => exact ⟨e, rfl⟩
  | vCallable => exact absurd rfl h3

end AzureBom

namespace AzureBom

/-- Claim C9, counterexample: for the record whose `unitPrice` is a callable
and whose `retailPrice` is the string "5", the emitted row has
`retailPrice` present but `unitPrice` dropped to `None`, so the claimed
"retailPrice is None iff unitPrice is None" fails. -/
theorem claim_C9_counterexample :
    ¬(((cleanRowToAllowed [("unitPrice", Val.vCallable), ("retailPrice", Val.vStr "5")]).retailPrice
        = none) ↔
      ((cleanRowToAllowed [("unitPrice", Val.vCallable), ("retailPrice", Val.vStr "5")]).unitPrice
        = none)) := by
  decide

/-- Claim C9 (amended): every row emitted by the cleaner has exactly the
canonical `ALLOWED_HEADINGS` key set, every value a string or `None`
(non-scalars keep their JSON encoding, callables and blanks drop to
`None`), and — provided neither picked source price value is a callable —
`retailPrice` is `None` iff `unitPrice` is `None`, a single supplied price
being copied into the other field. -/
theorem claim_C9 (r : InRow) :
    (toPairs (cleanRowToAllowed r)).map Prod.fst = allowedHeadings ∧
    (∀ e, toScalar (Val.vJson e) = some e) ∧
    toScalar Val.vCallable = none ∧
    toScalar (Val.vStr "") = none ∧
    toScalar Val.vNone = none ∧
    (pickFirstDict r ["unitPrice", "UnitPrice", "DiscountedPrice", "EffectiveUnitPrice"]
        ≠ some Val.vCallable →
     pickFirstDict r ["retailPrice", "RetailPrice"] ≠ some Val.vCallable →
     (((cleanRowToAllowed r).retailPrice = none ↔ (cleanRowToAllowed r).unitPrice = none) ∧
      (pickFirstDict r ["retailPrice", "RetailPrice"] = none →
        (cleanRowToAllowed r).retailPrice = (cleanRowToAllowed r).unitPrice))) := by
  refine ⟨rfl, fun e => rfl, rfl, rfl, rfl, ?_⟩
  intro hu hr
  have hup : (cleanRowToAllowed r).unitPrice = toScalarOpt
      (if pickFirstDict r ["unitPrice", "UnitPrice", "DiscountedPrice", "EffectiveUnitPrice"] = none
          ∧ pickFirstDict r ["retailPrice", "RetailPrice"] ≠ none
       then pickFirstDict r ["retailPrice", "RetailPrice"]
       else pickFirstDict r ["unitPrice", "UnitPrice", "DiscountedPrice", "EffectiveUnitPrice"]) :=
    rfl
  cases hu0 : pickFirstDict r ["unitPrice", "UnitPrice", "DiscountedPrice", "EffectiveUnitPrice"] with
  | none =>
      cases hr0 : pickFirstDict r ["retailPrice", "RetailPrice"] with
      | none =>
          constructor
          · constructor <;> intro
            · show toScalarOpt _ = none
              simp [hu0, hr0, toScalarOpt]
            · show toScalarOpt _ = none
              simp [hu0, hr0, toScalarOpt]
          · intro
            show toScalarOpt _ = toScalarOpt _
            simp [hu0, hr0]
      | some v =>
          have hnb := pickFirstDict_not_blank r _ v hr0
          have hnc : v ≠ Val.vCallable := by
            intro h; exact hr (by rw [hr0, h])
          obtain ⟨s, hs⟩ := toScalar_of_not_blank v hnb.1 hnb.2 hnc
          have h1 : (cleanRowToAllowed r).unitPrice = some s := by
            show toScalarOpt _ = some s
            simp [hu0, hr0, toScalarOpt, hs]
          have h2 : (cleanRowToAllowed r).retailPrice = some s := by
            show toScalarOpt _ = some s
            simp [hu0, hr0, toScalarOpt, hs]
          constructor
          · rw [h1, h2]
          · intro hcontra; exact Option.noConfusion hcontra
  | some v =>
      have hnb := pickFirstDict_not_blank r _ v hu0
      have hnc : v ≠ Val.vCallable := by
        intro h; exact hu (by rw [hu0, h])
      obtain ⟨s, hs⟩ := toScalar_of_not_blank v hnb.1 hnb.2 hnc
      have h1 : (cleanRowToAllowed r).unitPrice = some s := by
        show toScalarOpt _ = some s
        simp [hu0, toScalarOpt, hs]
      cases hr0 : pickFirstDict r ["retailPrice", "RetailPrice"] with
      | none =>
          have h2 : (cleanRowToAllowed r).retailPrice = some s := by
            show toScalarOpt _ = some s
            simp [hu0, hr0, toScalarOpt, hs]
          exact ⟨by rw [h1, h2], fun _ => by rw [h1, h2]⟩
      | some w =>
          have hnbw := pickFirstDict_not_blank r _ w hr0
          have hncw : w ≠ Val.vCallable := by
            intro h; exact hr (by rw [hr0, h])
          obtain ⟨t, ht⟩ := toScalar_of_not_blank w hnbw.1 hnbw.2 hncw
          have h2 : (cleanRowToAllowed r).retailPrice = some t := by
            show toScalarOpt _ = some t
            simp [hu0, hr0, toScalarOpt, ht]
          constructor
          · rw [h1, h2]; simp
          · intro hcontra; exact Option.noConfusion hcontra

/-- Witness for claim C9: the amended price-field conjunct applied to a
concrete record supplying only `retailPrice`. -/
theorem claim_C9_witness :
    ((cleanRowToAllowed [("retailPrice", Val.vStr "7")]).retailPrice = none ↔
      (cleanRowToAllowed [("retailPrice", Val.vStr "7")]).unitPrice = none) ∧
    (cleanRowToAllowed [("retailPrice", Val.vStr "7")]).retailPrice =
      (cleanRowToAllowed [("retailPrice", Val.vStr "7")]).unitPrice := by
  have h := (claim_C9 [("retailPrice", Val.vStr "7")]).2.2.2.2.2
    (by decide) (by decide)
  exact ⟨h.1, by decide⟩

end AzureBom

namespace AzureBom

/-! ## Price coercion totality (`helpers/math.py` `decimal`,
`helpers/rows.py` `_price` / `_is_positive`)

`decimal(val)` returns `val` unchanged when it is already a `Decimal` and
otherwise parses `str(val)` inside a `try`, answering the default on any
failure.  `PyVal` models its input universe; `decimalD` is total by
construction, exactly as the Python function never raises.  Ordering
comparisons on the resulting `Decimal` are partial: comparing `NaN`
signals `InvalidOperation`, modelled by `Except`.
-/

inductive PyVal where
  | pStr (s : String)
  | pNone
  | pDec (d : DecVal)
  | pInt (n : ℤ)
  | pObj (stringRepr : String)
deriving DecidableEq, Repr

/-- Python `str(val)` on the modelled inputs (unused for `Decimal` inputs,
which `decimal` returns unchanged). -/
def pyStrOf : PyVal → String
  | PyVal.pStr s => s
  | PyVal.pNone => "None"
  | PyVal.pDec _ => ""
  | PyVal.pInt n => toString n
  | PyVal.pObj r => r

/-- `decimal(val, default=Decimal(0))`: total coercion to a `Decimal`. -/
def decimalD (v : PyVal) : DecVal :=
  match v with
  | PyVal.pDec d => d
  | _ =>
      match parseDecimal (pyStrOf v) with
      | some d => d
      | none => DecVal.fin 0

/-- Ordering comparison `x > 0` on a `Decimal` value: defined on finite
values and infinities, signals `InvalidOperation` on `NaN`. -/
def decGtZero : DecVal → Except Unit Bool
  | DecVal.fin q => Except.ok (decide (0 < q))
  | DecVal.inf b => Except.ok b
  | DecVal.nan => Except.error ()

/-- `_price(i)` applied to a row price field: `decimal(i.get("retailPrice") or 0)`
(the falsy chain sends `None` and `""` to the integer `0`). -/
def rowPriceVal (p : Option String) : DecVal :=
  match truthyS p with
  | some s => decimalD (PyVal.pStr s)
  | none => DecVal.fin 0

/-- `_is_positive(i)` on a row price field: the comparison `_price(i) > 0`,
which may signal on `NaN`. -/
def isPositiveE (p : Option String) : Except Unit Bool :=
  decGtZero (rowPriceVal p)

/-- Claim C10, counterexample: the row price string "nan" parses to a
`Decimal` NaN, and the positive-price check then signals
`InvalidOperation` instead of being defined, refuting "defined for rows
containing arbitrary price values". -/
theorem claim_C10_counterexample :
    isPositiveE (some "nan") = Except.error () := rfl

/-- Claim C10 (amended): `decimal` is total — every input yields a
`Decimal`, with the default `0` whenever the input is not already a
`Decimal` and its string form does not parse — and the positive-price
check built on it is defined for every row price that does not coerce to
`NaN`, classifying unparseable prices as non-positive. -/
theorem claim_C10 :
    (∀ v : PyVal, ∃ d : DecVal, decimalD v = d) ∧
    (∀ v : PyVal, (∀ d, v ≠ PyVal.pDec d) → parseDecimal (pyStrOf v) = none →
      decimalD v = DecVal.fin 0) ∧
    (∀ p : Option String, rowPriceVal p ≠ DecVal.nan → ∃ b, isPositiveE p = Except.ok b) ∧
    (∀ s : String, parseDecimal s = none → isPositiveE (some s) = Except.ok false) := by
  refine ⟨fun v => ⟨decimalD v, rfl⟩, ?_, ?_, ?_⟩
  · intro v hnd hp
    cases v with
    | pStr s => simp [decimalD, hp]
    | pNone => simp [decimalD, hp]
    | pDec d => exact absurd rfl (hnd d)
    | pInt n => simp [decimalD, hp]
    | pObj r => simp [decimalD, hp]
  · intro p hn
    cases hv : rowPriceVal p with
    | fin q => exact ⟨decide (0 < q), by simp [isPositiveE, hv, decGtZero]⟩
    | inf b => exact ⟨b, by simp [isPositiveE, hv, decGtZero]⟩
    | nan => exact absurd hv hn
  · intro s hp
    by_cases hs : s = ""
    · subst hs
      simp [isPositiveE, rowPriceVal, truthyS, decGtZero]
    · simp [isPositiveE, rowPriceVal, truthyS, hs, decimalD, pyStrOf, hp, decGtZero]

/-- Witness for claim C10: the hypothesised conjuncts applied at concrete
inputs (an object whose string form is unparseable, a parseable price, and
an unparseable price string). -/
theorem claim_C10_witness :
    decimalD (PyVal.pObj "garbage") = DecVal.fin 0 ∧
    (∃ b, isPositiveE (some "2.5") = Except.ok b) ∧
    isPositiveE (some "garbage") = Except.ok false := by
  refine ⟨?_, ?_, ?_⟩
  · exact claim_C10.2.1 (PyVal.pObj "garbage") (fun d => by simp) (by decide)
  · exact claim_C10.2.2.1 (some "2.5") (by decide)
  · exact claim_C10.2.2.2 "garbage" (by decide)

end AzureBom

namespace AzureBom

/-! ## Negotiated price index (`pricing/enterprise.py`)

`normalise_enterprise_rows` builds a dict from cleaned rows keyed by
`(serviceName, sku, armRegionName, unitOfMeasure)`, keeping the lowest
positive price on key collision; `enterprise_lookup` tries the exact key,
then the regionless key, with no further fallback.  The Python dict is
modelled by an insertion-ordered association list with in-place update.
Prices are `Decimal` values (`DecVal`), exactly as `decimal` returns them:
the `px <= 0` and `px < out[key]` comparisons are partial — they signal
`InvalidOperation` on NaN, which aborts the whole construction — and an
Infinity price passes the positivity test and enters the index.
-/

/-- `Key = (serviceName, skuName, region, unitOfMeasure)`. -/
abbrev EKey := String × String × String × String

/-- Insertion-ordered dictionary from keys to values. -/
abbrev EntDict := List (EKey × ℚ)

/-- The Decimal-valued index built by `normalise_enterprise_rows`. -/
abbrev EntDictD := List (EKey × DecVal)

/-- Dict lookup (`d[k]` / `d.get(k)`). -/
def dictGet : List (EKey × α) → EKey → Option α
  | [], _ => none
  | (k0, v0) :: rest, k => if k0 = k then some v0 else dictGet rest k

/-- Dict update at an existing key (`d[k] = v` with `k in d`). -/
def dictSet : List (EKey × α) → EKey → α → List (EKey × α)
  | [], k, v => [(k, v)]
  | (k0, v0) :: rest, k, v =>
      if k0 = k then (k, v) :: rest else (k0, v0) :: dictSet rest k v

/-- Row key component: `(r.get("serviceName") or r.get("productName") or "").strip()`. -/
def entService (r : CRow) : String := pyStrip (pyOrSD (pyOrS r.serviceName r.productName) "")

/-- Row key component: skuName, falling back to meterName then armSkuName. -/
def entSku (r : CRow) : String :=
  pyStrip (pyOrSD (pyOrS (pyOrS r.skuName r.meterName) r.armSkuName) "")

/-- Row key component: region (blank when absent). -/
def entRegion (r : CRow) : String := pyStrip (pyOrSD r.armRegionName "")

/-- Row key component: unit of measure. -/
def entUom (r : CRow) : String := pyStrip (pyOrSD r.unitOfMeasure "")

/-- The index key of a cleaned row. -/
def entKey (r : CRow) : EKey := (entService r, entSku r, entRegion r, entUom r)

/-- The price of a cleaned row as the `Decimal` value
`decimal(r.get("unitPrice") or r.get("retailPrice") or "0")` — NaN and
Infinity results are kept, exactly as `decimal` returns them. -/
def entPxD (r : CRow) : DecVal :=
  decimalD (PyVal.pStr (pyOrSD (pyOrS r.unitPrice r.retailPrice) "0"))

/-- The Decimal comparison `x <= 0`: defined on finite values and
infinities, signals `InvalidOperation` on NaN. -/
def decLeZero : DecVal → Except Unit Bool
  | DecVal.fin q => Except.ok (decide (q ≤ 0))
  | DecVal.inf b => Except.ok (!b)
  | DecVal.nan => Except.error ()

/-- The Decimal comparison `a < b`: signals `InvalidOperation` when either
side is NaN. -/
def decLtD : DecVal → DecVal → Except Unit Bool
  | DecVal.nan, _ => Except.error ()
  | _, DecVal.nan => Except.error ()
  | DecVal.fin a, DecVal.fin b => Except.ok (decide (a < b))
  | DecVal.fin _, DecVal.inf b => Except.ok b
  | DecVal.inf a, DecVal.fin _ => Except.ok (!a)
  | DecVal.inf a, DecVal.inf b => Except.ok (!a && b)

/-- One iteration of the construction loop, the partiality of the two
Decimal comparisons made explicit: a NaN price makes `px <= 0` signal,
aborting the whole build; `decimal` itself never raises, so its dead
`try/except` contributes nothing. -/
def entStepE (out : EntDictD) (r : CRow) : Except Unit EntDictD :=
  let px := entPxD r
  match decLeZero px with
  | Except.error e => Except.error e
  | Except.ok true => Except.ok out
  | Except.ok false =>
      match dictGet out (entKey r) with
      | some cur =>
          match decLtD px cur with
          | Except.error e => Except.error e
          | Except.ok true => Except.ok (dictSet out (entKey r) px)
          | Except.ok false => Except.ok out
      | none => Except.ok (out ++ [(entKey r, px)])

/-- The construction loop of `normalise_enterprise_rows`, threading the
possible `InvalidOperation` signal. -/
def entBuildE : EntDictD → List CRow → Except Unit EntDictD
  | out, [] => Except.ok out
  | out, r :: rs =>
      match entStepE out r with
      | Except.error e => Except.error e
      | Except.ok out2 => entBuildE out2 rs

/-- `normalise_enterprise_rows(rows)`: the built index, or the propagated
`InvalidOperation` when a row price coerces to NaN. -/
def normaliseEnterpriseRowsD (rows : List CRow) : Except Unit EntDictD :=
  entBuildE [] rows

/-- `enterprise_lookup(ent, service, sku, region, uom)`: exact key, then the
regionless key, else not-found (finite-price index, as consumed by the
resolver). -/
def enterpriseLookup (ent : EntDict) (service sku region uom : String) : Option ℚ :=
  if ent = [] then none
  else
    match dictGet ent (service, sku, region, uom) with
    | some p => some p
    | none => dictGet ent (service, sku, "", uom)

/-- `enterprise_lookup` over the Decimal-valued index. -/
def enterpriseLookupD (ent : EntDictD) (service sku region uom : String) : Option DecVal :=
  if ent = [] then none
  else
    match dictGet ent (service, sku, region, uom) with
    | some p => some p
    | none => dictGet ent (service, sku, "", uom)

/-- `d` is a positive price in the Decimal sense: the code's own `px <= 0`
test returns False (finite positive values and +Infinity). -/
def DecPos (d : DecVal) : Prop := decLeZero d = Except.ok false

/-- `a ≤ b` in the Decimal sense: the comparison `b < a` returns False. -/
def DecLe (a b : DecVal) : Prop := decLtD b a = Except.ok false

/-- The index maps `k` to `p` precisely when `p` is the lowest positive
price among the rows producing key `k`. -/
def MinPosSpecD (rows : List CRow) (k : EKey) (p : DecVal) : Prop :=
  DecPos p ∧ (∃ r ∈ rows, entKey r = k ∧ entPxD r = p) ∧
    ∀ r ∈ rows, entKey r = k → DecPos (entPxD r) → DecLe p (entPxD r)

theorem dictGet_dictSet_self (d : List (EKey × α)) (k : EKey) (v : α) :
    dictGet (dictSet d k v) k = some v := by
  induction d with
  | nil => simp [dictGet, dictSet]
  | cons kv rest ih =>
      obtain ⟨k0, v0⟩ := kv
      by_cases h : k0 = k
      · simp [dictGet, dictSet, h]
      · simp [dictGet, dictSet, h, ih]

theorem dictGet_dictSet_ne (d : List (EKey × α)) (k k2 : EKey) (v : α) (h : k2 ≠ k) :
    dictGet (dictSet d k v) k2 = dictGet d k2 := by
  induction d with
  | nil => simp [dictGet, dictSet, Ne.symm h]
  | cons kv rest ih =>
      obtain ⟨k0, v0⟩ := kv
      by_cases h0 : k0 = k
      · subst h0
        simp [dictGet, dictSet, Ne.symm h]
      · by_cases h1 : k0 = k2
        · simp [dictGet, dictSet, h0, h1, h]
        · simp [dictGet, dictSet, h0, h1, ih]

theorem dictGet_append (d e : List (EKey × α)) (k : EKey) :
    dictGet (d ++ e) k = match dictGet d k with
      | some v => some v
      | none => dictGet e k := by
  induction d with
  | nil => simp [dictGet]
  | cons kv rest ih =>
      obtain ⟨k0, v0⟩ := kv
      by_cases h : k0 = k
      · simp [dictGet, h]
      · simp [dictGet, h, ih]

end AzureBom

namespace AzureBom

/-- Construction invariant: the accumulator dict is exactly the
lowest-positive-price index of the rows processed so far (a key is absent
precisely when no row for it passed the positivity test). -/
def IndexInvD (acc : EntDictD) (S : List CRow) : Prop :=
  (∀ k p, dictGet acc k = some p ↔ MinPosSpecD S k p) ∧
  (∀ k, dictGet acc k = none → ∀ r ∈ S, entKey r = k → ¬ DecPos (entPxD r))

theorem decPos_ne_nan (d : DecVal) (h : DecPos d) : d ≠ DecVal.nan := by
  intro hn
  rw [hn] at h
  simp [DecPos, decLeZero] at h

theorem decLtD_irrefl (a : DecVal) (h : a ≠ DecVal.nan) :
    decLtD a a = Except.ok false := by
  cases a with
  | fin q => simp [decLtD]
  | inf b => cases b <;> simp [decLtD]
  | nan => exact absurd rfl h

theorem decLtD_antisymm (a b : DecVal)
    (h1 : decLtD a b = Except.ok false) (h2 : decLtD b a = Except.ok false) :
    a = b := by
  cases a with
  | nan => simp [decLtD] at h1
  | fin qa =>
      cases b with
      | nan => simp [decLtD] at h1
      | fin qb =>
          simp only [decLtD, Except.ok.injEq, decide_eq_false_iff_not] at h1 h2
          exact congrArg DecVal.fin (le_antisymm (le_of_not_lt h2) (le_of_not_lt h1))
      | inf s =>
          cases s with
          | false => simp [decLtD] at h2
          | true => simp [decLtD] at h1
  | inf sa =>
      cases b with
      | nan => simp [decLtD] at h1
      | fin qb =>
          cases sa with
          | false => simp [decLtD] at h1
          | true => simp [decLtD] at h2
      | inf sb =>
          cases sa with
          | false =>
              cases sb with
              | false => rfl
              | true => simp [decLtD] at h1
          | true =>
              cases sb with
              | false => simp [decLtD] at h2
              | true => rfl

theorem decLt_le_trans (a b c : DecVal)
    (h1 : decLtD a b = Except.ok true) (h2 : decLtD c b = Except.ok false) :
    decLtD c a = Except.ok false := by
  cases a <;> cases b <;> cases c <;> simp_all [decLtD] <;> linarith

theorem decLt_absurd (a b c : DecVal)
    (h1 : decLtD a b = Except.ok true) (h2 : decLtD c b = Except.ok false)
    (h3 : decLtD a c = Except.ok false) : False := by
  have hca := decLt_le_trans a b c h1 h2
  have hac : a = c := decLtD_antisymm a c h3 hca
  subst hac
  rw [h1] at h2
  cases h2

theorem entStepE_err (out : EntDictD) (r : CRow)
    (h : decLeZero (entPxD r) = Except.error ()) :
    entStepE out r = Except.error () := by
  simp [entStepE, h]

theorem entStepE_skip (out : EntDictD) (r : CRow)
    (h : decLeZero (entPxD r) = Except.ok true) :
    entStepE out r = Except.ok out := by
  simp [entStepE, h]

theorem entStepE_insert (out : EntDictD) (r : CRow)
    (h1 : decLeZero (entPxD r) = Except.ok false)
    (h2 : dictGet out (entKey r) = none) :
    entStepE out r = Except.ok (out ++ [(entKey r, entPxD r)]) := by
  simp [entStepE, h1, h2]

theorem entStepE_cmpErr (out : EntDictD) (r : CRow) (cur : DecVal)
    (h1 : decLeZero (entPxD r) = Except.ok false)
    (h2 : dictGet out (entKey r) = some cur)
    (h3 : decLtD (entPxD r) cur = Except.error ()) :
    entStepE out r = Except.error () := by
  simp [entStepE, h1, h2, h3]

theorem entStepE_update (out : EntDictD) (r : CRow) (cur : DecVal)
    (h1 : decLeZero (entPxD r) = Except.ok false)
    (h2 : dictGet out (entKey r) = some cur)
    (h3 : decLtD (entPxD r) cur = Except.ok true) :
    entStepE out r = Except.ok (dictSet out (entKey r) (entPxD r)) := by
  simp [entStepE, h1, h2, h3]

theorem entStepE_keep (out : EntDictD) (r : CRow) (cur : DecVal)
    (h1 : decLeZero (entPxD r) = Except.ok false)
    (h2 : dictGet out (entKey r) = some cur)
    (h3 : decLtD (entPxD r) cur = Except.ok false) :
    entStepE out r = Except.ok out := by
  simp [entStepE, h1, h2, h3]

theorem minPosD_snoc_of_nonpos (S : List CRow) (r : CRow) (k : EKey) (p : DecVal)
    (hpx : ¬ DecPos (entPxD r)) : MinPosSpecD S k p ↔ MinPosSpecD (S ++ [r]) k p := by
  unfold MinPosSpecD
  constructor
  · rintro ⟨hp, ⟨r0, hm, hk0, hpx0⟩, hmin⟩
    refine ⟨hp, ⟨r0, List.mem_append_left _ hm, hk0, hpx0⟩, ?_⟩
    intro r1 hm1 hk1 hpos1
    rcases List.mem_append.mp hm1 with h1 | h1
    · exact hmin r1 h1 hk1 hpos1
    · rw [List.mem_singleton.mp h1] at hpos1
      exact absurd hpos1 hpx
  · rintro ⟨hp, ⟨r0, hm, hk0, hpx0⟩, hmin⟩
    rcases List.mem_append.mp hm with h0 | h0
    · refine ⟨hp, ⟨r0, h0, hk0, hpx0⟩, ?_⟩
      intro r1 hm1 hk1 hpos1
      exact hmin r1 (List.mem_append_left _ hm1) hk1 hpos1
    · rw [List.mem_singleton.mp h0] at hpx0
      rw [← hpx0] at hp
      exact absurd hp hpx

theorem minPosD_snoc_ne (S : List CRow) (r : CRow) (k : EKey) (p : DecVal)
    (hk : entKey r ≠ k) : MinPosSpecD S k p ↔ MinPosSpecD (S ++ [r]) k p := by
  unfold MinPosSpecD
  constructor
  · rintro ⟨hp, ⟨r0, hm0, hk0, hpx0⟩, hmin⟩
    refine ⟨hp, ⟨r0, List.mem_append_left _ hm0, hk0, hpx0⟩, ?_⟩
    intro r1 hm1 hk1 hpos1
    rcases List.mem_append.mp hm1 with h1 | h1
    · exact hmin r1 h1 hk1 hpos1
    · rw [List.mem_singleton.mp h1] at hk1
      exact absurd hk1 hk
  · rintro ⟨hp, ⟨r0, hm0, hk0, hpx0⟩, hmin⟩
    rcases List.mem_append.mp hm0 with h0 | h0
    · refine ⟨hp, ⟨r0, h0, hk0, hpx0⟩, ?_⟩
      intro r1 hm1 hk1 hpos1
      exact hmin r1 (List.mem_append_left _ hm1) hk1 hpos1
    · rw [List.mem_singleton.mp h0] at hk0
      exact absurd hk0 hk

theorem entStepE_inv (acc acc2 : EntDictD) (S : List CRow) (r : CRow)
    (h : IndexInvD acc S) (hstep : entStepE acc r = Except.ok acc2) :
    IndexInvD acc2 (S ++ [r]) := by
  obtain ⟨hiff, hnone⟩ := h
  cases hle : decLeZero (entPxD r) with
  | error e =>
      cases e
      rw [entStepE_err acc r hle] at hstep
      cases hstep
  | ok b =>
      cases b with
      | true =>
          rw [entStepE_skip acc r hle] at hstep
          have hacc2 : acc2 = acc := (Except.ok.inj hstep).symm
          subst hacc2
          have hnp : ¬ DecPos (entPxD r) := by
            intro hpp
            simp only [DecPos, hle] at hpp
            exact Bool.noConfusion (Except.ok.inj hpp)
          refine ⟨fun k p => (hiff k p).trans (minPosD_snoc_of_nonpos S r k p hnp), ?_⟩
          intro k hk r1 hm1 hk1
          rcases List.mem_append.mp hm1 with h1 | h1
          · exact hnone k hk r1 h1 hk1
          · rw [List.mem_singleton.mp h1]
            exact hnp
      | false =>
          have hpos : DecPos (entPxD r) := hle
          cases hacc : dictGet acc (entKey r) with
          | none =>
              rw [entStepE_insert acc r hle hacc] at hstep
              have hacc2 : acc2 = acc ++ [(entKey r, entPxD r)] := (Except.ok.inj hstep).symm
              subst hacc2
              have hself : dictGet (acc ++ [(entKey r, entPxD r)]) (entKey r)
                  = some (entPxD r) := by
                rw [dictGet_append, hacc]
                simp [dictGet]
              have hother : ∀ k, k ≠ entKey r →
                  dictGet (acc ++ [(entKey r, entPxD r)]) k = dictGet acc k := by
                intro k hk
                rw [dictGet_append]
                cases hga : dictGet acc k with
                | some v => rfl
                | none => simp [dictGet, Ne.symm hk]
              constructor
              · intro k p
                by_cases hk : k = entKey r
                · rw [hk, hself]
                  constructor
                  · intro hsome
                    have hps : p = entPxD r := (Option.some.inj hsome).symm
                    subst hps
                    refine ⟨hpos,
                      ⟨r, List.mem_append_right _ (List.mem_singleton.mpr rfl), rfl, rfl⟩, ?_⟩
                    intro r1 hm1 hk1 hpos1
                    rcases List.mem_append.mp hm1 with h1 | h1
                    · exact absurd hpos1 (hnone _ hacc r1 h1 hk1)
                    · rw [List.mem_singleton.mp h1]
                      exact decLtD_irrefl _ (decPos_ne_nan _ hpos)
                  · rintro ⟨hp, ⟨r0, hm0, hk0, hpx0⟩, hmin⟩
                    rcases List.mem_append.mp hm0 with h0 | h0
                    · have hnp0 := hnone _ hacc r0 h0 hk0
                      rw [hpx0] at hnp0
                      exact absurd hp hnp0
                    · rw [List.mem_singleton.mp h0] at hpx0
                      rw [← hpx0]
                · rw [hother k hk, hiff k p]
                  exact minPosD_snoc_ne S r k p (fun hh => hk hh.symm)
              · intro k hk r1 hm1 hk1
                have hka : k ≠ entKey r := by
                  intro hkk
                  rw [hkk, hself] at hk
                  cases hk
                rw [hother k hka] at hk
                rcases List.mem_append.mp hm1 with h1 | h1
                · exact hnone k hk r1 h1 hk1
                · rw [List.mem_singleton.mp h1] at hk1
                  exact absurd hk1.symm hka
          | some cur =>
              have hcur : MinPosSpecD S (entKey r) cur := (hiff _ cur).mp hacc
              obtain ⟨hcurpos, ⟨rc, hmc, hkc, hpxc⟩, hcurmin⟩ := hcur
              cases hcmp : decLtD (entPxD r) cur with
              | error e =>
                  cases e
                  rw [entStepE_cmpErr acc r cur hle hacc hcmp] at hstep
                  cases hstep
              | ok bx =>
                  cases bx with
                  | true =>
                      rw [entStepE_update acc r cur hle hacc hcmp] at hstep
                      have hacc2 : acc2 = dictSet acc (entKey r) (entPxD r) :=
                        (Except.ok.inj hstep).symm
                      subst hacc2
                      constructor
                      · intro k p
                        by_cases hk : k = entKey r
                        · rw [hk, dictGet_dictSet_self]
                          constructor
                          · intro hsome
                            have hps : p = entPxD r := (Option.some.inj hsome).symm
                            subst hps
                            refine ⟨hpos,
                              ⟨r, List.mem_append_right _ (List.mem_singleton.mpr rfl),
                                rfl, rfl⟩, ?_⟩
                            intro r1 hm1 hk1 hpos1
                            rcases List.mem_append.mp hm1 with h1 | h1
                            · exact decLt_le_trans _ _ _ hcmp (hcurmin r1 h1 hk1 hpos1)
                            · rw [List.mem_singleton.mp h1]
                              exact decLtD_irrefl _ (decPos_ne_nan _ hpos)
                          · rintro ⟨hp, ⟨r0, hm0, hk0, hpx0⟩, hmin⟩
                            have hple : DecLe p (entPxD r) :=
                              hmin r (List.mem_append_right _ (List.mem_singleton.mpr rfl))
                                rfl hpos
                            rcases List.mem_append.mp hm0 with h0 | h0
                            · have hcp : DecLe cur p := by
                                have hh := hcurmin r0 h0 hk0 (by rw [hpx0]; exact hp)
                                rw [hpx0] at hh
                                exact hh
                              exact (decLt_absurd _ _ _ hcmp hcp hple).elim
                            · rw [List.mem_singleton.mp h0] at hpx0
                              rw [← hpx0]
                        · rw [dictGet_dictSet_ne _ _ _ _ hk, hiff k p]
                          exact minPosD_snoc_ne S r k p (fun hh => hk hh.symm)
                      · intro k hk r1 hm1 hk1
                        have hka : k ≠ entKey r := by
                          intro hkk
                          rw [hkk, dictGet_dictSet_self] at hk
                          cases hk
                        rw [dictGet_dictSet_ne _ _ _ _ hka] at hk
                        rcases List.mem_append.mp hm1 with h1 | h1
                        · exact hnone k hk r1 h1 hk1
                        · rw [List.mem_singleton.mp h1] at hk1
                          exact absurd hk1.symm hka
                  | false =>
                      rw [entStepE_keep acc r cur hle hacc hcmp] at hstep
                      have hacc2 : acc2 = acc := (Except.ok.inj hstep).symm
                      subst hacc2
                      constructor
                      · intro k p
                        by_cases hk : k = entKey r
                        · rw [hiff k p]
                          constructor
                          · rintro ⟨hp, hex, hmin⟩
                            have hpc : p = cur := by
                              have h1h := (hiff k p).mpr ⟨hp, hex, hmin⟩
                              rw [hk, hacc] at h1h
                              exact (Option.some.inj h1h).symm
                            obtain ⟨r0, hm0, hk0, hpx0⟩ := hex
                            refine ⟨hp, ⟨r0, List.mem_append_left _ hm0, hk0, hpx0⟩, ?_⟩
                            intro r1 hm1 hk1 hpos1
                            rcases List.mem_append.mp hm1 with h1 | h1
                            · exact hmin r1 h1 hk1 hpos1
                            · rw [List.mem_singleton.mp h1, hpc]
                              exact hcmp
                          · rintro ⟨hp, ⟨r0, hm0, hk0, hpx0⟩, hmin⟩
                            have hpcur : DecLe p cur := by
                              have hh := hmin rc (List.mem_append_left _ hmc)
                                (by rw [hkc, ← hk]) (by rw [hpxc]; exact hcurpos)
                              rw [hpxc] at hh
                              exact hh
                            rcases List.mem_append.mp hm0 with h0 | h0
                            · refine ⟨hp, ⟨r0, h0, hk0, hpx0⟩, ?_⟩
                              intro r1 hm1 hk1 hpos1
                              exact hmin r1 (List.mem_append_left _ hm1) hk1 hpos1
                            · rw [List.mem_singleton.mp h0] at hpx0
                              have hcurle : DecLe cur p := by
                                rw [← hpx0]
                                exact hcmp
                              have hpeq : p = cur := (decLtD_antisymm cur p hpcur hcurle).symm
                              refine ⟨hp, ⟨rc, hmc, ?_, ?_⟩, ?_⟩
                              · rw [hkc, ← hk]
                              · rw [hpxc, hpeq]
                              · intro r1 hm1 hk1 hpos1
                                exact hmin r1 (List.mem_append_left _ hm1) hk1 hpos1
                        · rw [hiff k p]
                          exact minPosD_snoc_ne S r k p (fun hh => hk hh.symm)
                      · intro k hk r1 hm1 hk1
                        have hka : k ≠ entKey r := by
                          intro hkk
                          rw [hkk, hacc] at hk
                          cases hk
                        rcases List.mem_append.mp hm1 with h1 | h1
                        · exact hnone k hk r1 h1 hk1
                        · rw [List.mem_singleton.mp h1] at hk1
                          exact absurd hk1.symm hka

end AzureBom

namespace AzureBom

theorem entBuildE_inv (rows : List CRow) :
    ∀ (acc acc2 : EntDictD) (S : List CRow),
      IndexInvD acc S → entBuildE acc rows = Except.ok acc2 →
        IndexInvD acc2 (S ++ rows) := by
  induction rows with
  | nil =>
      intro acc acc2 S h hb
      simp only [entBuildE, Except.ok.injEq] at hb
      subst hb
      simpa using h
  | cons r rows ih =>
      intro acc acc2 S h hb
      simp only [entBuildE] at hb
      cases hs : entStepE acc r with
      | error e =>
          simp only [hs] at hb
          exact Except.noConfusion hb
      | ok out2 =>
          simp only [hs] at hb
          have h2 := entStepE_inv acc out2 S r h hs
          have h3 := ih out2 acc2 (S ++ [r]) h2 hb
          simpa [List.append_assoc] using h3

theorem indexInvD_nil : IndexInvD [] [] := by
  constructor
  · intro k p
    constructor
    · intro h
      cases h
    · rintro ⟨_, ⟨r0, hm0, _, _⟩, _⟩
      cases hm0
  · intro k _ r1 hm1
    cases hm1

theorem normaliseEnterpriseRowsD_char (rows : List CRow) (idx : EntDictD)
    (h : normaliseEnterpriseRowsD rows = Except.ok idx) :
    ∀ k p, dictGet idx k = some p ↔ MinPosSpecD rows k p := by
  have h2 := entBuildE_inv rows [] idx [] indexInvD_nil h
  simpa using h2.1

theorem entStepE_ok_no_nan (out out2 : EntDictD) (r : CRow)
    (h : entStepE out r = Except.ok out2) : entPxD r ≠ DecVal.nan := by
  intro hn
  simp [entStepE, hn, decLeZero] at h

theorem entBuildE_ok_no_nan (rows : List CRow) :
    ∀ (acc idx : EntDictD), entBuildE acc rows = Except.ok idx →
      ∀ r ∈ rows, entPxD r ≠ DecVal.nan := by
  induction rows with
  | nil =>
      intro acc idx h r hr
      cases hr
  | cons r0 rows ih =>
      intro acc idx h r hr
      simp only [entBuildE] at h
      cases hs : entStepE acc r0 with
      | error e =>
          simp only [hs] at h
          exact Except.noConfusion h
      | ok out2 =>
          simp only [hs] at h
          rcases List.mem_cons.mp hr with h1 | h1
          · rw [h1]
            exact entStepE_ok_no_nan acc out2 r0 hs
          · exact ih out2 idx h r h1

attribute [local semireducible] Rat.add Rat.mul Rat.inv Rat.sub

/-- A cleaned negotiated-sheet row with the given service, sku, region,
unit of measure and unit price (region may be blank). -/
def sheetRow (svc sku region uom price : String) : CRow :=
  cleanRowToAllowed
    [("serviceName", Val.vStr svc), ("skuName", Val.vStr sku),
     ("armRegionName", Val.vStr region), ("unitOfMeasure", Val.vStr uom),
     ("unitPrice", Val.vStr price)]

/-- Claim C2: the negotiated index maps each key to the lowest positive
price among the sheet rows producing it, positivity and minimality taken in
the `Decimal` comparisons the code itself performs — which signal `InvalidOperation` on
NaN, so a sheet row whose price coerces to `Decimal` NaN aborts the whole
construction: the characterization is stated for builds that return an
index, and a successful build contains no NaN-priced row, while an Infinity
price passes the `px <= 0` test and is admitted into the index.  Lookup
tries the exact 4-tuple key, then the key with region blanked, else
not-found, with no further fallback.  Concretely: a sheet with duplicate
key rows priced 2.00 and 1.50 yields 1.50; a lookup under a different
region falls back to the regionless entry when present, and misses
otherwise; a "nan" price raises; an "Infinity" price enters the index and
is returned by lookup. -/
theorem claim_C2 :
    (∀ (rows : List CRow) (idx : EntDictD),
      normaliseEnterpriseRowsD rows = Except.ok idx →
        ∀ k p, dictGet idx k = some p ↔ MinPosSpecD rows k p) ∧
    (∀ (rows : List CRow) (idx : EntDictD),
      normaliseEnterpriseRowsD rows = Except.ok idx →
        ∀ r ∈ rows, entPxD r ≠ DecVal.nan) ∧
    (∀ (ent : EntDictD) (service sku region uom : String),
      enterpriseLookupD ent service sku region uom =
        match dictGet ent (service, sku, region, uom) with
        | some p => some p
        | none => dictGet ent (service, sku, "", uom)) ∧
    (normaliseEnterpriseRowsD
        [sheetRow "X" "Y" "r" "1 Hour" "2.00", sheetRow "X" "Y" "r" "1 Hour" "1.50"] =
      Except.ok [(("X", "Y", "r", "1 Hour"), DecVal.fin (3 / 2))] ∧
     enterpriseLookupD [(("X", "Y", "r", "1 Hour"), DecVal.fin (3 / 2))]
        "X" "Y" "r" "1 Hour" = some (DecVal.fin (3 / 2))) ∧
    (normaliseEnterpriseRowsD [sheetRow "X" "Y" "" "1 Hour" "4"] =
      Except.ok [(("X", "Y", "", "1 Hour"), DecVal.fin 4)] ∧
     enterpriseLookupD [(("X", "Y", "", "1 Hour"), DecVal.fin 4)]
        "X" "Y" "q" "1 Hour" = some (DecVal.fin 4)) ∧
    (normaliseEnterpriseRowsD [sheetRow "X" "Y" "r" "1 Hour" "2.00"] =
      Except.ok [(("X", "Y", "r", "1 Hour"), DecVal.fin 2)] ∧
     enterpriseLookupD [(("X", "Y", "r", "1 Hour"), DecVal.fin 2)]
        "X" "Y" "q" "1 Hour" = none) ∧
    normaliseEnterpriseRowsD [sheetRow "X" "Y" "r" "1 Hour" "nan"] = Except.error () ∧
    (normaliseEnterpriseRowsD [sheetRow "X" "Y" "r" "1 Hour" "Infinity"] =
      Except.ok [(("X", "Y", "r", "1 Hour"), DecVal.inf true)] ∧
     enterpriseLookupD [(("X", "Y", "r", "1 Hour"), DecVal.inf true)]
        "X" "Y" "r" "1 Hour" = some (DecVal.inf true)) := by
  refine ⟨?_, ?_, ?_, ⟨by rfl, by decide⟩, ⟨by rfl, by decide⟩,
    ⟨by rfl, by decide⟩, by rfl, ⟨by rfl, by decide⟩⟩
  · intro rows idx h k p
    exact normaliseEnterpriseRowsD_char rows idx h k p
  · intro rows idx h
    exact entBuildE_ok_no_nan rows [] idx h
  · intro ent service sku region uom
    by_cases h : ent = []
    · subst h
      simp [enterpriseLookupD, dictGet]
    · simp [enterpriseLookupD, h]

/-- Witness for claim C2: the characterization and the no-NaN consequence
instantiated on the duplicate-key sheet, whose build succeeds and exhibits
1.50 as the lowest positive price, together with the lookup shape at its
index. -/
theorem claim_C2_witness :
    MinPosSpecD
      [sheetRow "X" "Y" "r" "1 Hour" "2.00", sheetRow "X" "Y" "r" "1 Hour" "1.50"]
      ("X", "Y", "r", "1 Hour") (DecVal.fin (3 / 2)) ∧
    entPxD (sheetRow "X" "Y" "r" "1 Hour" "2.00") ≠ DecVal.nan :=
  ⟨(claim_C2.1
      [sheetRow "X" "Y" "r" "1 Hour" "2.00", sheetRow "X" "Y" "r" "1 Hour" "1.50"]
      [(("X", "Y", "r", "1 Hour"), DecVal.fin (3 / 2))] (by rfl)
      ("X", "Y", "r", "1 Hour") (DecVal.fin (3 / 2))).mp (by decide),
   claim_C2.2.1
      [sheetRow "X" "Y" "r" "1 Hour" "2.00", sheetRow "X" "Y" "r" "1 Hour" "1.50"]
      [(("X", "Y", "r", "1 Hour"), DecVal.fin (3 / 2))] (by rfl)
      (sheetRow "X" "Y" "r" "1 Hour" "2.00") (List.mem_cons_self _ _)⟩

end AzureBom

namespace AzureBom

/-! ## Offline query interpreter (`pricing/retail.py`,
`_parse_simple_filter` / `retail_fetch_items_offline`)

The filter expression is split on top-level " and" (parenthesis depth
tracked, quotes not special), each part is matched against the `eq` and
`contains` clause regexes (case-insensitive, full match), and unmatched
parts become always-true clauses.
-/

/-- A recognised (or unrecognised) filter clause. -/
inductive FilterClause where
  | fieldEq (fld val : String)
  | fieldContains (fld val : String)
  | unknown (raw : String)
deriving DecidableEq, Repr

/-- `\w` (ASCII fragment: letters, digits, underscore). -/
def isWordChar (c : Char) : Bool := c.isAlphanum || c = '_'

/-- Split a leading run of chars satisfying `p`. -/
def spanList (p : Char → Bool) : List Char → List Char × List Char
  | [] => ([], [])
  | c :: rest =>
      if p c then
        let (a, b) := spanList p rest
        (c :: a, b)
      else ([], c :: rest)

/-- The top-level " and" splitter of `_parse_simple_filter` (fuel equals the
input length; each step consumes at least one char). -/
def splitGo : Nat → List Char → Int → List Char → List String → List String
  | _, [], _, buf, acc => if buf ≠ [] then acc ++ [pyStrip ⟨buf⟩] else acc
  | 0, _ :: _, _, _, acc => acc
  | fuel + 1, c :: rest, depth, buf, acc =>
      let depth1 : Int := if c = '(' then depth + 1 else if c = ')' then depth - 1 else depth
      if depth1 = 0 ∧ ((c :: rest).take 4).map Char.toLower = " and".toList then
        splitGo fuel (rest.drop 3) depth1 [] (acc ++ [pyStrip ⟨buf⟩])
      else
        splitGo fuel rest depth1 (buf ++ [c]) acc

/-- Split the filter string on top-level " and". -/
def splitTopAnd (s : String) : List String :=
  splitGo s.toList.length s.toList 0 [] []

/-- Full match of `\s*(\w+)\s+eq\s+'([^']*)'\s*` (case-insensitive `eq`). -/
def matchEqRe (p : String) : Option (String × String) :=
  let rest0 := p.toList.dropWhile Char.isWhitespace
  let (fld, rest1) := spanList isWordChar rest0
  if fld = [] then none
  else
    let (ws1, rest2) := takeSpaces rest1
    if ws1 = [] then none
    else
      match rest2 with
      | e :: q :: rest3 =>
          if e.toLower = 'e' ∧ q.toLower = 'q' then
            let (ws2, rest4) := takeSpaces rest3
            if ws2 = [] then none
            else
              match rest4 with
              | '\x27' :: rest5 =>
                  let (val, rest6) := spanList (fun c => c ≠ '\x27') rest5
                  match rest6 with
                  | '\x27' :: rest7 =>
                      if rest7.dropWhile Char.isWhitespace = [] then some (⟨fld⟩, ⟨val⟩)
                      else none
                  | _ => none
              | _ => none
          else none
      | _ => none

/-- Full match of `\s*contains\(\s*(\w+)\s*,\s*'([^']*)'\s*\)\s*`
(case-insensitive `contains`). -/
def matchContainsRe (p : String) : Option (String × String) :=
  let rest0 := p.toList.dropWhile Char.isWhitespace
  if (rest0.take 8).map Char.toLower = "contains".toList then
    match rest0.drop 8 with
    | '(' :: rest1 =>
        let rest2 := rest1.dropWhile Char.isWhitespace
        let (fld, rest3) := spanList isWordChar rest2
        if fld = [] then none
        else
          match rest3.dropWhile Char.isWhitespace with
          | ',' :: rest5 =>
              match rest5.dropWhile Char.isWhitespace with
              | '\x27' :: rest7 =>
                  let (val, rest8) := spanList (fun c => c ≠ '\x27') rest7
                  match rest8 with
                  | '\x27' :: rest9 =>
                      match rest9.dropWhile Char.isWhitespace with
                      | ')' :: rest11 =>
                          if rest11.dropWhile Char.isWhitespace = [] then some (⟨fld⟩, ⟨val⟩)
                          else none
                      | _ => none
                  | _ => none
              | _ => none
          | _ => none
    | _ => none
  else none

/-- Classify one part: `eq` clause, `contains` clause, else unknown. -/
def parseClause (p : String) : FilterClause :=
  match matchEqRe p with
  | some (f, v) => FilterClause.fieldEq f v
  | none =>
      match matchContainsRe p with
      | some (f, v) => FilterClause.fieldContains f v
      | none => FilterClause.unknown p

/-- `_parse_simple_filter(expr)` as clause descriptors (an empty expression
yields one always-true clause). -/
def parseSimpleFilter (s : String) : List FilterClause :=
  if s = "" then [FilterClause.unknown ""]
  else (splitTopAnd s).map parseClause

/-- Field access of the offline interpreter on a cleaned row:
`dict.get` by canonical column name. -/
def rowGet (r : CRow) : String → Option String
  | "serviceName" => r.serviceName
  | "productName" => r.productName
  | "skuName" => r.skuName
  | "meterName" => r.meterName
  | "unitOfMeasure" => r.unitOfMeasure
  | "retailPrice" => r.retailPrice
  | "currencyCode" => r.currencyCode
  | "armRegionName" => r.armRegionName
  | "priceType" => r.priceType
  | "effectiveStartDate" => r.effectiveStartDate
  | "meterId" => r.meterId
  | "skuId" => r.skuId
  | "productId" => r.productId
  | "effectiveEndDate" => r.effectiveEndDate
  | "unitPrice" => r.unitPrice
  | "serviceId" => r.serviceId
  | "location" => r.location
  | "savingsPlan" => r.savingsPlan
  | "isPrimaryMeterRegion" => r.isPrimaryMeterRegion
  | "serviceFamily" => r.serviceFamily
  | "type" => r.type
  | "reservationTerm" => r.reservationTerm
  | "armSkuName" => r.armSkuName
  | "tierMinimumUnits" => r.tierMinimumUnits
  | _ => none

/-- `str(row.get(fld) or "")`. -/
def rowGetStr (r : CRow) (k : String) : String := pyOrSD (rowGet r k) ""

/-- Per-row evaluation of one clause. -/
def evalClause (c : FilterClause) (r : CRow) : Bool :=
  match c with
  | FilterClause.fieldEq f v => pyLower (rowGetStr r f) == pyLower v
  | FilterClause.fieldContains f v => strContainsSub (pyLower (rowGetStr r f)) (pyLower v)
  | FilterClause.unknown _ => true

/-- A row passes a filter when all parsed clauses hold of it. -/
def matchesFilter (s : String) (r : CRow) : Bool :=
  (parseSimpleFilter s).all (fun c => evalClause c r)

end AzureBom

namespace AzureBom

/-- The example filter of the claim:
`serviceName eq (quote)X(quote) and contains(meterName,(quote)Foo(quote))`. -/
def exampleFilter : String :=
  "serviceName eq " ++ "\x27" ++ "X" ++ "\x27" ++
    " and contains(meterName," ++ "\x27" ++ "Foo" ++ "\x27" ++ ")"

/-- A filter using an operator the interpreter does not recognise. -/
def nonEqFilter : String := "priceType ne " ++ "\x27" ++ "Reservation" ++ "\x27"

/-- Claim C5: the offline interpreter evaluates a filter as the conjunction
of its top-level AND clauses; an `eq` clause holds iff the field equals
the value case-insensitively, a `contains` clause iff the value occurs in
the field case-insensitively, and every unrecognised clause is
always-true; hence the example filter selects exactly the rows with
serviceName "X" (case-insensitively) whose meterName contains "Foo"
(case-insensitively), and a filter made of an unrecognised clause keeps
every row. -/
theorem claim_C5 :
    parseSimpleFilter exampleFilter =
      [FilterClause.fieldEq "serviceName" "X", FilterClause.fieldContains "meterName" "Foo"] ∧
    (∀ (r : CRow) (f v : String),
      evalClause (FilterClause.fieldEq f v) r = (pyLower (rowGetStr r f) == pyLower v)) ∧
    (∀ (r : CRow) (f v : String),
      evalClause (FilterClause.fieldContains f v) r
        = strContainsSub (pyLower (rowGetStr r f)) (pyLower v)) ∧
    (∀ (r : CRow) (raw : String), evalClause (FilterClause.unknown raw) r = true) ∧
    (∀ (s : String) (r : CRow),
      matchesFilter s r = (parseSimpleFilter s).all (fun c => evalClause c r)) ∧
    (∀ r : CRow, matchesFilter exampleFilter r = true ↔
      (pyLower (rowGetStr r "serviceName") = "x" ∧
       strContainsSub (pyLower (rowGetStr r "meterName")) "foo" = true)) ∧
    (∀ r : CRow, matchesFilter nonEqFilter r = true) := by
  refine ⟨by decide, fun r f v => rfl, fun r f v => rfl, fun r raw => rfl,
    fun s r => rfl, ?_, ?_⟩
  · intro r
    have hp : parseSimpleFilter exampleFilter =
        [FilterClause.fieldEq "serviceName" "X", FilterClause.fieldContains "meterName" "Foo"] := by
      decide
    have hx : pyLower "X" = "x" := by decide
    have hfoo : pyLower "Foo" = "foo" := by decide
    simp [matchesFilter, hp, evalClause, hx, hfoo]
  · intro r
    have hp2 : parseSimpleFilter nonEqFilter =
        [FilterClause.unknown ("priceType ne " ++ "\x27" ++ "Reservation" ++ "\x27")] := by
      decide
    simp [matchesFilter, hp2, evalClause]

/-- Witness for claim C5: a concrete cleaned row with serviceName "X" and a
meterName containing "Foo" passes the example filter. -/
theorem claim_C5_witness :
    matchesFilter exampleFilter
      (cleanRowToAllowed
        [("serviceName", Val.vStr "X"), ("meterName", Val.vStr "BigFooMeter")]) = true :=
  (claim_C5.2.2.2.2.2.1 _).mpr ⟨by decide, by decide⟩

end AzureBom

namespace AzureBom

/-! ## Retail candidate rows and row-level helpers
(`helpers/csv.py` row utilities, `helpers.py` `_dedup_merge`)

For the selection logic the relevant row fields are embedded directly;
price fields hold the parsed decimal value (`None` for absent prices), all
other fields the raw optional strings.
-/

/-- A price row as consumed by the selection logic. -/
structure Row where
  serviceName : Option String
  productName : Option String
  skuName : Option String
  meterName : Option String
  armSkuName : Option String
  unitOfMeasure : Option String
  armRegionName : Option String
  priceType : Option String
  type : Option String
  meterId : Option String
  currencyCode : Option String
  retailPrice : Option ℚ
  unitPrice : Option ℚ
deriving DecidableEq, Repr

/-- String-field access by column name (`i.get(key)`). -/
def rGet (r : Row) : String → Option String
  | "serviceName" => r.serviceName
  | "productName" => r.productName
  | "skuName" => r.skuName
  | "meterName" => r.meterName
  | "armSkuName" => r.armSkuName
  | "unitOfMeasure" => r.unitOfMeasure
  | "armRegionName" => r.armRegionName
  | "priceType" => r.priceType
  | "type" => r.type
  | "meterId" => r.meterId
  | "currencyCode" => r.currencyCode
  | _ => none

/-- `_text(i)`: canonical lower-cased text over the name fields. -/
def rowText (r : Row) : String :=
  pyLower (pyOrSD r.serviceName "" ++ " " ++ pyOrSD r.productName "" ++ " " ++
    pyOrSD r.skuName "" ++ " " ++ pyOrSD r.meterName "" ++ " " ++ pyOrSD r.armSkuName "")

/-- `_price(i)`: `decimal(i.get("retailPrice") or 0)` (parsed model). -/
def rowPrice (r : Row) : ℚ := pyOrQ0 r.retailPrice

/-- `_is_positive(i)`. -/
def rowIsPositive (r : Row) : Bool := rowPrice r > 0

/-- `_eq(i, key, val)`: case-insensitive equality on a column. -/
def rowEq (r : Row) (key val : String) : Bool :=
  pyLower (pyOrSD (rGet r key) "") == pyLower val

/-- De-duplication identity: meterId when present (truthy), else the
service/sku/meter/uom/region tuple. -/
inductive DedupKey where
  | byMeter (m : String)
  | byTuple (a b c d e : Option String)
deriving DecidableEq, Repr

/-- The de-duplication key of a row. -/
def dedupKeyOf (r : Row) : DedupKey :=
  match truthyS r.meterId with
  | some m => DedupKey.byMeter m
  | none => DedupKey.byTuple r.serviceName r.skuName r.meterName r.unitOfMeasure r.armRegionName

/-- The de-duplication loop over the flattened result lists. -/
def dedupGo : List Row → List DedupKey → List Row
  | [], _ => []
  | r :: rest, seen =>
      let k := dedupKeyOf r
      if seen.contains k then dedupGo rest seen
      else r :: dedupGo rest (k :: seen)

/-- `dedup_merge(lists)`. -/
def dedupMerge (lists : List (List Row)) : List Row :=
  dedupGo lists.flatten []

/-- One row-retention decision of `filter_rows` (the loop body with its
`continue` chain, as a conjunction). -/
def filterRowsKeep (requiredEquals : List (String × String)) (requiredUom : Option String)
    (tokens : List String) (allowedPriceTypes : Option (List String))
    (armRegionL : Option String) (i : Row) : Bool :=
  rowIsPositive i &&
  requiredEquals.all (fun kv => rowEq i kv.1 kv.2) &&
  (match allowedPriceTypes with
   | none => true
   | some ts =>
       if ts = [] then true
       else
         let allowed := ts.map pyLower
         allowed.contains (pyLower (pyOrSD i.priceType "")) ||
           allowed.contains (pyLower (pyOrSD i.type ""))) &&
  (match truthyS requiredUom with
   | none => true
   | some u => pyLower (pyOrSD i.unitOfMeasure "") == pyLower u) &&
  (match armRegionL with
   | none => true
   | some a =>
       let rowArm := pyLower (pyOrSD i.armRegionName "")
       rowArm == "" || rowArm == a) &&
  (tokens.all (fun tok => strContainsSub (rowText i) tok))

/-- `filter_rows(items, required_equals, required_uom, must_contain,
allowed_price_types, region_hint)`. -/
def filterRows (items : List Row) (requiredEquals : List (String × String))
    (requiredUom : Option String) (mustContain : List String)
    (allowedPriceTypes : Option (List String)) (regionHint : Option String) : List Row :=
  let tokens := (mustContain.filter (fun t => t ≠ "")).map pyLower
  let armRegionL :=
    match truthyS regionHint with
    | some h => some (pyLower (armRegion h))
    | none => none
  items.filter (filterRowsKeep requiredEquals requiredUom tokens allowedPriceTypes armRegionL)

/-! ### Stable sorting (Python `sorted` / `list.sort`)

Python sorting is stable; `pyInsertBy`/`pySortBy` implement a stable
insertion sort for a strict `lt` on keys: an element is inserted before
every later element whose key is not strictly smaller. -/

/-- Insert `x` after all elements strictly smaller, before the rest. -/
def pyInsertBy (lt : α → α → Bool) (x : α) : List α → List α
  | [] => [x]
  | y :: ys => if lt y x then y :: pyInsertBy lt x ys else x :: y :: ys

/-- Stable sort by a strict comparison. -/
def pySortBy (lt : α → α → Bool) (l : List α) : List α :=
  l.foldr (pyInsertBy lt) []

/-- `prefer_region` sort key: 0 for an exact region match, 1 for a blank
region, 2 otherwise. -/
def regionKey (region : String) (r : Row) : Nat :=
  let armL := pyLower (armRegion region)
  let rowArm := pyLower (pyOrSD r.armRegionName "")
  if rowArm = armL then 0 else if rowArm = "" then 1 else 2

/-- `prefer_region(rows, region)`: stable sort by the region key. -/
def preferRegion (rows : List Row) (region : String) : List Row :=
  pySortBy (fun a b => regionKey region a < regionKey region b) rows

/-- `pick_first(rows)`. -/
def pickFirst (rows : List Row) : Option Row := rows.head?

end AzureBom

namespace AzureBom

/-! ## Price resolver (`helpers/pricing.py`, `price_by_service`)

The retail sources (`search_saved_retail_items`, `retail_fetch_items_live`)
are I/O boundaries, abstracted as functions from a filter expression to the
row list it returns.  The body mirrors the source: enterprise lookup first;
on a miss, build the filter cascade, query saved pages then the live API,
merge and de-duplicate, filter and region-sort, pick the first row.
-/

/-- A single-quote character as a string (used in filter expressions). -/
def sq : String := "\x27"

/-- Abstract rendering of a decimal value for audit strings. -/
def showQ (q : ℚ) : String := toString q.num ++ "/" ++ toString q.den

/-- Replace-or-append assignment on a string association list (`d[k] = v`). -/
def setAssocS : List (String × String) → String → String → List (String × String)
  | [], k, v => [(k, v)]
  | (k0, v0) :: rest, k, v =>
      if k0 = k then (k, v) :: rest else (k0, v0) :: setAssocS rest k v

/-- Python `dict.update` on a string association list. -/
def updateAssocS (base extra : List (String × String)) : List (String × String) :=
  extra.foldl (fun acc kv => setAssocS acc kv.1 kv.2) base

/-- The increasingly broad filter list of `price_by_service`. -/
def pbsFilters (service : String) (product : Option String) (arm : String) : List String :=
  ["serviceName eq " ++ sq ++ service ++ sq ++ " and armRegionName eq " ++ sq ++ arm ++ sq,
   "serviceName eq " ++ sq ++ service ++ sq] ++
  (match truthyS product with
   | some p =>
       ["productName eq " ++ sq ++ p ++ sq ++ " and armRegionName eq " ++ sq ++ arm ++ sq,
        "productName eq " ++ sq ++ p ++ sq]
   | none => [])

/-- Fetch and merge: saved pages first, live API only when nothing was
found in the saved pages. -/
def pbsFetchItems (filters : List String) (fetchSaved fetchLive : String → List Row) : List Row :=
  let listsFromSaved := (filters.map fetchSaved).filter (fun l => l ≠ [])
  if listsFromSaved ≠ [] then dedupMerge listsFromSaved
  else
    let listsFromLive := (filters.map fetchLive).filter (fun l => l ≠ [])
    if listsFromLive ≠ [] then dedupMerge listsFromLive else []

/-- The per-pass filter of `price_by_service` (its inner `_filter`):
deterministic row filter followed by the region-preference sort. -/
def pbsDoFilter (items : List Row) (uom : Option String) (tokens : List String)
    (allowed : Option (List String)) (region : String)
    (req : List (String × String)) : List Row :=
  preferRegion (filterRows items req uom tokens allowed (some region)) region

/-- The retail candidate cascade of `price_by_service` (steps 2 and 3 of
the source): fetch, merge, filter by serviceName (with extras), fall back
to productName when nothing matched and a product was given. -/
def pbsCandidateRows (service : String) (product : Option String) (region : String)
    (uom : Option String) (mustContain : List String)
    (extraRequiredEquals : List (String × String)) (allowedPriceTypes : Option (List String))
    (fetchSaved fetchLive : String → List Row) : List Row :=
  let arm := armRegion region
  let items := pbsFetchItems (pbsFilters service product arm) fetchSaved fetchLive
  let allowed :=
    match allowedPriceTypes with
    | none => some ["Consumption", "DevTestConsumption", "Reservation"]
    | some ts => some ts
  let tokens := (mustContain.filter (fun t => t ≠ "")).map pyLower
  let rows := pbsDoFilter items uom tokens allowed region
    (updateAssocS [("serviceName", service)] extraRequiredEquals)
  match truthyS product with
  | some p => if rows = [] then pbsDoFilter items uom tokens allowed region [("productName", p)] else rows
  | none => rows

/-- `price_by_service(...) -> (total, description)`. -/
def priceByService (service : String) (product : Option String) (sku region : String)
    (entPrices : EntDict) (uom : Option String) (qty hours : ℚ) (mustContain : List String)
    (extraRequiredEquals : List (String × String)) (allowedPriceTypes : Option (List String))
    (fetchSaved fetchLive : String → List Row) : ℚ × String :=
  match enterpriseLookup entPrices service sku region (pyOrSD uom "") with
  | some ent =>
      (ent * qty * hours,
        service ++ " " ++ sku ++ " @" ++ showQ ent ++ "/" ++ pyOrSD uom "unit"
          ++ " × " ++ showQ qty ++ " × " ++ showQ hours)
  | none =>
      let rows := pbsCandidateRows service product region uom mustContain
        extraRequiredEquals allowedPriceTypes fetchSaved fetchLive
      let unit :=
        match pickFirst rows with
        | some r => rowPrice r
        | none => (0 : ℚ)
      (unit * qty * hours,
        service ++ (match truthyS product with | some p => " / " ++ p | none => "") ++ " "
          ++ sku ++ " @" ++ showQ unit ++ "/" ++ pyOrSD uom "unit"
          ++ " × " ++ showQ qty ++ " × " ++ showQ hours)

theorem mem_pyInsertBy (lt : α → α → Bool) (x a : α) :
    ∀ l : List α, a ∈ pyInsertBy lt x l ↔ a = x ∨ a ∈ l := by
  intro l
  induction l with
  | nil => simp [pyInsertBy]
  | cons y ys ih =>
      simp only [pyInsertBy]
      by_cases h : lt y x
      · rw [if_pos h]
        simp only [List.mem_cons, ih]
        tauto
      · rw [if_neg h]
        simp only [List.mem_cons]

theorem mem_pySortBy (lt : α → α → Bool) (a : α) :
    ∀ l : List α, a ∈ pySortBy lt l ↔ a ∈ l := by
  intro l
  induction l with
  | nil => simp [pySortBy]
  | cons y ys ih =>
      show a ∈ pyInsertBy lt y (pySortBy lt ys) ↔ _
      rw [mem_pyInsertBy, ih]
      exact (List.mem_cons).symm

theorem head?_mem {l : List α} {a : α} (h : l.head? = some a) : a ∈ l := by
  cases l with
  | nil => cases h
  | cons x xs =>
      simp only [List.head?] at h
      cases h
      exact List.mem_cons_self _ _

theorem mem_pbsDoFilter_positive (items : List Row) (uom : Option String)
    (tokens : List String) (allowed : Option (List String)) (region : String)
    (req : List (String × String)) (r : Row)
    (h : r ∈ pbsDoFilter items uom tokens allowed region req) : 0 < rowPrice r := by
  rw [pbsDoFilter, preferRegion, mem_pySortBy] at h
  rw [filterRows] at h
  rw [List.mem_filter] at h
  have hk := h.2
  simp only [filterRowsKeep, Bool.and_eq_true] at hk
  have hpos : rowIsPositive r = true := hk.1.1.1.1.1
  simp only [rowIsPositive] at hpos
  exact of_decide_eq_true hpos

theorem mem_pbsCandidateRows (service : String) (product : Option String)
    (region : String) (uom : Option String) (mustContain : List String)
    (extraRequiredEquals : List (String × String)) (allowedPriceTypes : Option (List String))
    (fetchSaved fetchLive : String → List Row) (r : Row)
    (h : r ∈ pbsCandidateRows service product region uom mustContain
      extraRequiredEquals allowedPriceTypes fetchSaved fetchLive) :
    ∃ items req tokens allowed, r ∈ pbsDoFilter items uom tokens allowed region req := by
  simp only [pbsCandidateRows] at h
  cases htp : truthyS product with
  | none =>
      simp only [htp] at h
      exact ⟨_, _, _, _, h⟩
  | some p =>
      simp only [htp] at h
      split at h
      · exact ⟨_, _, _, _, h⟩
      · exact ⟨_, _, _, _, h⟩

theorem pbsCandidateRows_positive (service : String) (product : Option String)
    (region : String) (uom : Option String) (mustContain : List String)
    (extraRequiredEquals : List (String × String)) (allowedPriceTypes : Option (List String))
    (fetchSaved fetchLive : String → List Row) (r : Row)
    (h : r ∈ pbsCandidateRows service product region uom mustContain
      extraRequiredEquals allowedPriceTypes fetchSaved fetchLive) :
    0 < rowPrice r := by
  obtain ⟨items, req, tokens, allowed, hmem⟩ := mem_pbsCandidateRows service product region
    uom mustContain extraRequiredEquals allowedPriceTypes fetchSaved fetchLive r h
  exact mem_pbsDoFilter_positive items uom tokens allowed region req r hmem

end AzureBom

namespace AzureBom

attribute [local semireducible] Rat.add Rat.mul Rat.inv Rat.sub

/-- A negotiated index holding one key at unit price 2.50. -/
def entD : EntDict := [(("SvcA", "SKU1", "r", "1 Hour"), (5 / 2 : ℚ))]

/-- A retail fetch returning nothing for every filter. -/
def fetchNone : String → List Row := fun _ => []

/-- Claim C1: the resolver consults the negotiated index first — on a hit
the total is the negotiated unit price × quantity × hours and the result
does not depend on either retail source; on a miss it runs the retail
cascade and, when a row is chosen, returns that row's price × quantity ×
hours (the chosen price being strictly positive); when no row is chosen it
returns total 0 with the descriptive audit string; and for unit 2.50,
quantity 4, hours 730 the total is 7300. -/
theorem claim_C1 :
    (∀ (service : String) (product : Option String) (sku region : String) (ent : EntDict)
        (uom : Option String) (qty hours : ℚ) (mc : List String)
        (ere : List (String × String)) (apt : Option (List String))
        (fS1 fL1 fS2 fL2 : String → List Row) (p : ℚ),
      enterpriseLookup ent service sku region (pyOrSD uom "") = some p →
        priceByService service product sku region ent uom qty hours mc ere apt fS1 fL1
          = priceByService service product sku region ent uom qty hours mc ere apt fS2 fL2
        ∧ (priceByService service product sku region ent uom qty hours mc ere apt fS1 fL1).1
          = p * qty * hours) ∧
    (∀ (service : String) (product : Option String) (sku region : String) (ent : EntDict)
        (uom : Option String) (qty hours : ℚ) (mc : List String)
        (ere : List (String × String)) (apt : Option (List String))
        (fS fL : String → List Row) (r : Row),
      enterpriseLookup ent service sku region (pyOrSD uom "") = none →
      pickFirst (pbsCandidateRows service product region uom mc ere apt fS fL) = some r →
        (priceByService service product sku region ent uom qty hours mc ere apt fS fL).1
          = rowPrice r * qty * hours
        ∧ 0 < rowPrice r) ∧
    (∀ (service : String) (product : Option String) (sku region : String) (ent : EntDict)
        (uom : Option String) (qty hours : ℚ) (mc : List String)
        (ere : List (String × String)) (apt : Option (List String))
        (fS fL : String → List Row),
      enterpriseLookup ent service sku region (pyOrSD uom "") = none →
      pickFirst (pbsCandidateRows service product region uom mc ere apt fS fL) = none →
        (priceByService service product sku region ent uom qty hours mc ere apt fS fL).1 = 0
        ∧ (priceByService service product sku region ent uom qty hours mc ere apt fS fL).2
          = service ++ (match truthyS product with | some p => " / " ++ p | none => "") ++ " "
            ++ sku ++ " @" ++ showQ 0 ++ "/" ++ pyOrSD uom "unit"
            ++ " × " ++ showQ qty ++ " × " ++ showQ hours) ∧
    (priceByService "SvcA" none "SKU1" "r" entD (some "1 Hour") 4 730 [] [] none
      fetchNone fetchNone).1 = 7300 := by
  refine ⟨?_, ?_, ?_, by decide⟩
  · intro service product sku region ent uom qty hours mc ere apt fS1 fL1 fS2 fL2 p h
    constructor
    · simp only [priceByService, h]
    · simp only [priceByService, h]
  · intro service product sku region ent uom qty hours mc ere apt fS fL r hent hpick
    constructor
    · simp only [priceByService, hent, hpick]
    · exact pbsCandidateRows_positive service product region uom mc ere apt fS fL r
        (head?_mem hpick)
  · intro service product sku region ent uom qty hours mc ere apt fS fL hent hpick
    constructor
    · simp only [priceByService, hent, hpick]
      ring
    · simp only [priceByService, hent, hpick]

/-- A retail row surviving the resolver cascade for service "S" in
Australia East at price 0.10. -/
def retailRowS : Row :=
  { serviceName := some "S", productName := none, skuName := some "K",
    meterName := none, armSkuName := none, unitOfMeasure := some "1 Hour",
    armRegionName := some "australiaeast", priceType := some "Consumption",
    type := none, meterId := some "m1", currencyCode := none,
    retailPrice := some (1 / 10), unitPrice := some (1 / 10) }

/-- Witness for claim C1: the three hypothesised conjuncts applied at
concrete inputs — an enterprise hit, a retail hit, and a retail miss. -/
theorem claim_C1_witness :
    (priceByService "SvcA" none "SKU1" "r" entD (some "1 Hour") 4 730 [] [] none
      fetchNone fetchNone).1 = 5 / 2 * 4 * 730 ∧
    (priceByService "S" none "K" "Australia East" [] (some "1 Hour") 2 730 [] [] none
      (fun _ => [retailRowS]) fetchNone).1 = rowPrice retailRowS * 2 * 730 ∧
    (priceByService "S" none "K" "Australia East" [] (some "1 Hour") 2 730 [] [] none
      fetchNone fetchNone).1 = 0 := by
  refine ⟨?_, ?_, ?_⟩
  · exact (claim_C1.1 "SvcA" none "SKU1" "r" entD (some "1 Hour") 4 730 [] [] none
      fetchNone fetchNone fetchNone fetchNone (5 / 2) (by decide)).2
  · exact ((claim_C1.2.1 "S" none "K" "Australia East" [] (some "1 Hour") 2 730 [] [] none
      (fun _ => [retailRowS]) fetchNone retailRowS (by decide) (by decide)).1)
  · exact ((claim_C1.2.2.1 "S" none "K" "Australia East" [] (some "1 Hour") 2 730 [] [] none
      fetchNone fetchNone (by decide) (by decide)).1)

end AzureBom

namespace AzureBom

/-! ## App Service candidate selection (`handlers/app_service.py`,
`_pick_app_service` and its row predicates)

Rows here are raw retail items (dict access with defaults), represented by
the same `Row` type.  The picker filters by `_ok_plan_row`, sorts stably by
`(-region_match, price)`, and applies the exact-sku guardrail when the top
price exceeds 1.50.
-/

/-- `_BAD_TOKENS` (a set in the source; order immaterial). -/
def appSvcBadTokens : List String :=
  ["stamp", "stamp fee", "environment base", "app service environment", "ase",
   "ase v2", "ase v3", "isolated", "isolated v2", "functions", "function app",
   "free", "shared"]

/-- `_is_bad_row(i)`. -/
def isBadRow (i : Row) : Bool :=
  let txt := pyLower ((i.serviceName.getD "") ++ " " ++ (i.productName.getD "") ++ " " ++
    (i.skuName.getD "") ++ " " ++ (i.meterName.getD ""))
  appSvcBadTokens.any (fun tok => strContainsSub txt tok)

/-- Python `s.replace("v", " v")` (single-char pattern). -/
def spacedV (s : String) : String :=
  ⟨s.toList.flatMap (fun c => if c = 'v' then [' ', 'v'] else [c])⟩

/-- `_mentions_sku(i, sku)`. -/
def mentionsSku (i : Row) (sku : String) : Bool :=
  let skuL := pyLower sku
  let spaced := spacedV skuL
  let text := pyLower ((i.skuName.getD "") ++ " " ++ (i.meterName.getD "") ++ " " ++
    (i.productName.getD ""))
  (pyLower (pyStrip (i.skuName.getD "")) == skuL) ||
    strContainsSub text skuL || strContainsSub text spaced

/-- `_ok_plan_row(i, sku)`. -/
def okPlanRow (i : Row) (sku : String) : Bool :=
  (decide (0 < i.retailPrice.getD 0)) &&
  (i.unitOfMeasure == some "1 Hour") &&
  !(isBadRow i) &&
  strContainsSub (pyLower ((i.serviceName.getD "") ++ " " ++ (i.productName.getD "")))
    "app service" &&
  mentionsSku i sku

/-- The binary region-match signal of the sort key. -/
def appSvcRegionMatch (armReg : String) (i : Row) : ℤ :=
  if pyOrSD i.armRegionName "" = armReg then 1 else 0

/-- The sort key `(-region_match, price)`. -/
def appSvcKey (armReg : String) (i : Row) : ℤ × ℚ :=
  (-(appSvcRegionMatch armReg i), i.retailPrice.getD 0)

/-- Strict lexicographic comparison of sort keys. -/
def keyLt (a b : ℤ × ℚ) : Bool :=
  decide (a.1 < b.1) || (decide (a.1 = b.1) && decide (a.2 < b.2))

/-- The candidates retained by `_ok_plan_row`. -/
def appSvcCands (items : List Row) (sku : String) : List Row :=
  items.filter (fun i => okPlanRow i sku)

/-- The candidates in sorted order (`cands.sort(key=key)`). -/
def appSvcSorted (items : List Row) (sku : String) (armReg : String) : List Row :=
  pySortBy (fun i j => keyLt (appSvcKey armReg i) (appSvcKey armReg j)) (appSvcCands items sku)

/-- `_pick_app_service(items, sku, arm_region)`. -/
def pickAppService (items : List Row) (sku : String) (armReg : String) : Option Row :=
  match appSvcSorted items sku armReg with
  | [] => none
  | top :: _ =>
      if top.retailPrice.getD 0 > (3 / 2 : ℚ) then
        let exacts := (appSvcSorted items sku armReg).filter
          (fun i => pyStrip (i.skuName.getD "") = sku)
        match pySortBy (fun i j => decide (i.retailPrice.getD 0 < j.retailPrice.getD 0)) exacts with
        | [] => some top
        | e :: _ => some e
      else some top

theorem keyLt_iff (a b : ℤ × ℚ) :
    keyLt a b = true ↔ (a.1 < b.1 ∨ (a.1 = b.1 ∧ a.2 < b.2)) := by
  simp [keyLt, Bool.or_eq_true, Bool.and_eq_true, decide_eq_true_eq]

theorem keyLt_false_iff (a b : ℤ × ℚ) :
    keyLt a b = false ↔ ¬(a.1 < b.1 ∨ (a.1 = b.1 ∧ a.2 < b.2)) := by
  rw [← keyLt_iff]
  exact Bool.eq_false_iff.trans (by simp)

theorem keyLt_asym (a b : ℤ × ℚ) (h : keyLt a b = true) : keyLt b a = false := by
  rw [keyLt_iff] at h
  rw [keyLt_false_iff]
  rcases h with h1 | ⟨h1, h2⟩
  · rintro (g1 | ⟨g1, _⟩)
    · exact absurd (lt_trans h1 g1) (lt_irrefl _)
    · rw [g1] at h1; exact absurd h1 (lt_irrefl _)
  · rintro (g1 | ⟨_, g2⟩)
    · rw [h1] at g1; exact absurd g1 (lt_irrefl _)
    · exact absurd (lt_trans h2 g2) (lt_irrefl _)

theorem keyLt_negtrans (a b c : ℤ × ℚ)
    (hab : keyLt a b = false) (hbc : keyLt b c = false) : keyLt a c = false := by
  rw [keyLt_false_iff] at hab hbc ⊢
  push_neg at hab hbc
  obtain ⟨hba, hab2⟩ := hab
  obtain ⟨hcb, hbc2⟩ := hbc
  rintro (g1 | ⟨g1, g2⟩)
  · exact absurd (lt_of_lt_of_le g1 (le_trans hcb hba)) (lt_irrefl _)
  · have hba1 : b.1 = a.1 := le_antisymm hba (by rw [g1]; exact hcb)
    have hcb1 : c.1 = b.1 := le_antisymm hcb (by rw [← g1]; exact hba)
    have h2 : b.2 ≤ a.2 := hab2 hba1.symm
    have h3 : c.2 ≤ b.2 := hbc2 hcb1.symm
    exact absurd (lt_of_lt_of_le g2 (le_trans h3 h2)) (lt_irrefl _)

end AzureBom

namespace AzureBom

theorem pairwise_pyInsertBy (lt : α → α → Bool)
    (hasym : ∀ a b, lt a b = true → lt b a = false)
    (hnt : ∀ a b c, lt a b = false → lt b c = false → lt a c = false) (x : α) :
    ∀ l : List α, l.Pairwise (fun a b => lt b a = false) →
      (pyInsertBy lt x l).Pairwise (fun a b => lt b a = false) := by
  intro l
  induction l with
  | nil => intro _; simp [pyInsertBy]
  | cons y ys ih =>
      intro hp
      rw [List.pairwise_cons] at hp
      obtain ⟨hy, hys⟩ := hp
      simp only [pyInsertBy]
      by_cases h : lt y x = true
      · rw [if_pos h, List.pairwise_cons]
        constructor
        · intro z hz
          rw [mem_pyInsertBy] at hz
          rcases hz with rfl | hz
          · exact hasym y z h
          · exact hy z hz
        · exact ih hys
      · rw [if_neg h, List.pairwise_cons]
        have hyx : lt y x = false := Bool.eq_false_iff.mpr h
        constructor
        · intro z hz
          rcases List.mem_cons.mp hz with rfl | hz
          · exact hyx
          · exact hnt z y x (hy z hz) hyx
        · exact List.pairwise_cons.mpr ⟨hy, hys⟩

theorem pairwise_pySortBy (lt : α → α → Bool)
    (hasym : ∀ a b, lt a b = true → lt b a = false)
    (hnt : ∀ a b c, lt a b = false → lt b c = false → lt a c = false) :
    ∀ l : List α, (pySortBy lt l).Pairwise (fun a b => lt b a = false) := by
  intro l
  induction l with
  | nil => simp [pySortBy]
  | cons y ys ih =>
      show (pyInsertBy lt y (pySortBy lt ys)).Pairwise _
      exact pairwise_pyInsertBy lt hasym hnt y (pySortBy lt ys) ih

theorem pySortBy_head_min (lt : α → α → Bool)
    (hasym : ∀ a b, lt a b = true → lt b a = false)
    (hnt : ∀ a b c, lt a b = false → lt b c = false → lt a c = false)
    (l : List α) (h : α) (t : List α) (heq : pySortBy lt l = h :: t) :
    ∀ y ∈ l, lt y h = false := by
  intro y hy
  have hmem : y ∈ pySortBy lt l := (mem_pySortBy lt y l).mpr hy
  rw [heq] at hmem
  rcases List.mem_cons.mp hmem with rfl | ht
  · by_cases hself : lt y y = true
    · exact hasym y y hself
    · exact Bool.eq_false_iff.mpr hself
  · have hp := pairwise_pySortBy lt hasym hnt l
    rw [heq, List.pairwise_cons] at hp
    exact hp.1 y ht

end AzureBom

namespace AzureBom

attribute [local semireducible] Rat.add Rat.mul Rat.inv Rat.sub

/-- An App Service candidate row at price 0.10 (exact region match). -/
def appRow10 : Row :=
  { serviceName := some "App Service", productName := some "App Service Premium v3 Plan",
    skuName := some "P1v3", meterName := some "P1 v3", armSkuName := none,
    unitOfMeasure := some "1 Hour", armRegionName := some "australiaeast",
    priceType := some "Consumption", type := none, meterId := some "m10",
    currencyCode := none, retailPrice := some (1 / 10), unitPrice := some (1 / 10) }

/-- The same candidate shape at price 0.08. -/
def appRow08 : Row :=
  { serviceName := some "App Service", productName := some "App Service Premium v3 Plan",
    skuName := some "P1v3", meterName := some "P1 v3", armSkuName := none,
    unitOfMeasure := some "1 Hour", armRegionName := some "australiaeast",
    priceType := some "Consumption", type := none, meterId := some "m08",
    currencyCode := none, retailPrice := some (2 / 25), unitPrice := some (2 / 25) }

/-- Claim C7: when every candidate carries the same region-match signal
(identical score) and no candidate price exceeds the 1.50 guardrail, the
row selected by `_pick_app_service` is a candidate of minimal price; in
particular, with score ties at prices 0.10 and 0.08 the 0.08 row is
selected. -/
theorem claim_C7 :
    (∀ (items : List Row) (sku arm : String) (r : Row),
      (∀ c ∈ items, okPlanRow c sku = true → c.retailPrice.getD 0 ≤ 3 / 2) →
      (∀ c ∈ items, ∀ d ∈ items, okPlanRow c sku = true → okPlanRow d sku = true →
        appSvcRegionMatch arm c = appSvcRegionMatch arm d) →
      pickAppService items sku arm = some r →
        r ∈ items ∧ okPlanRow r sku = true ∧
        ∀ c ∈ items, okPlanRow c sku = true →
          r.retailPrice.getD 0 ≤ c.retailPrice.getD 0) ∧
    pickAppService [appRow10, appRow08] "P1v3" "australiaeast" = some appRow08 := by
  constructor
  · intro items sku arm r hbound hsame hpick
    have hasym : ∀ a b : Row, keyLt (appSvcKey arm a) (appSvcKey arm b) = true →
        keyLt (appSvcKey arm b) (appSvcKey arm a) = false :=
      fun a b h => keyLt_asym _ _ h
    have hnt : ∀ a b c : Row, keyLt (appSvcKey arm a) (appSvcKey arm b) = false →
        keyLt (appSvcKey arm b) (appSvcKey arm c) = false →
        keyLt (appSvcKey arm a) (appSvcKey arm c) = false :=
      fun a b c h1 h2 => keyLt_negtrans _ _ _ h1 h2
    cases hs : appSvcSorted items sku arm with
    | nil =>
        simp only [pickAppService, hs] at hpick
        exact absurd hpick (by simp)
    | cons top rest =>
        have htopmem : top ∈ appSvcCands items sku := by
          have hmm : top ∈ appSvcSorted items sku arm := by
            rw [hs]; exact List.mem_cons_self _ _
          rw [appSvcSorted, mem_pySortBy] at hmm
          exact hmm
        have htop : top ∈ items ∧ okPlanRow top sku = true := by
          rw [appSvcCands, List.mem_filter] at htopmem
          exact htopmem
        have hif : ¬ (top.retailPrice.getD 0 > (3 / 2 : ℚ)) :=
          not_lt.mpr (hbound top htop.1 htop.2)
        simp only [pickAppService, hs, if_neg hif] at hpick
        have hrt : r = top := (Option.some.inj hpick).symm
        subst hrt
        refine ⟨htop.1, htop.2, ?_⟩
        intro c hc hok
        have hcc : c ∈ appSvcCands items sku := by
          rw [appSvcCands, List.mem_filter]; exact ⟨hc, hok⟩
        have hs2 : pySortBy (fun i j => keyLt (appSvcKey arm i) (appSvcKey arm j))
            (appSvcCands items sku) = r :: rest := hs
        have hlt := pySortBy_head_min _ hasym hnt (appSvcCands items sku) r rest hs2 c hcc
        rw [keyLt_false_iff] at hlt
        push_neg at hlt
        have hsm : appSvcRegionMatch arm c = appSvcRegionMatch arm r :=
          hsame c hc r htop.1 hok htop.2
        have h1 : (appSvcKey arm c).1 = (appSvcKey arm r).1 := by
          show -(appSvcRegionMatch arm c) = -(appSvcRegionMatch arm r)
          rw [hsm]
        exact hlt.2 h1
  · decide

/-- Witness for claim C7: the tie-break conjunct applied to the concrete
two-candidate list, exhibiting the 0.08 row as the minimal-price choice. -/
theorem claim_C7_witness :
    appRow08 ∈ [appRow10, appRow08] ∧
    appRow08.retailPrice.getD 0 ≤ appRow10.retailPrice.getD 0 := by
  have h := claim_C7.1 [appRow10, appRow08] "P1v3" "australiaeast" appRow08
    (by decide) (by decide) claim_C7.2
  exact ⟨h.1, h.2.2 appRow10 (by decide) (by decide)⟩

end AzureBom

namespace AzureBom

/-! ## Resumable retail downloader (`pricing/retail.py`,
`retail_download_to_csv` / `_save_checkpoint` / `_has_positive_price`)

The paginated API is abstracted as a list of pages (page `i` holds raw
items; the continuation link after page `i` is page `i+1` when it exists,
else null).  The persistent state is the `.part` file contents plus the
checkpoint; the while loop is a step function on that state, with an
iteration budget modelling interruption after any number of fully
checkpointed pages.  Resumption re-enters the loop at
`cp.get("next_link") or base`, and a completed run atomically swaps the
file in and deletes the checkpoint.
-/

/-- `_has_positive_price(row)`: `decimal(retailPrice or unitPrice or 0) > 0`,
with any comparison signal (NaN) caught as `False`. -/
def hasPositivePriceC (r : CRow) : Bool :=
  match decGtZero (decimalD (PyVal.pStr (pyOrSD (pyOrS r.retailPrice r.unitPrice) "0"))) with
  | Except.ok b => b
  | Except.error _ => false

/-- The checkpoint record `(next_link, rows_written, page_no)`. -/
structure CkPt where
  nextLink : Option Nat
  rowsWritten : Nat
  pageNo : Nat
deriving DecidableEq, Repr

/-- Persistent downloader state: the `.part` file rows and the checkpoint
file (absent on a fresh start or after a completed run). -/
structure DlState where
  part : List CRow
  checkpoint : Option CkPt
deriving DecidableEq, Repr

/-- A fresh start: empty `.part`, no checkpoint. -/
def freshState : DlState := { part := [], checkpoint := none }

/-- The rows of one page that are written: cleaned rows with a positive
price. -/
def pageKeptRows (items : List InRow) : List CRow :=
  (cleanRows items).filter hasPositivePriceC

/-- The continuation link returned with page `i`. -/
def nextLinkOf (numPages i : Nat) : Option Nat :=
  if i + 1 < numPages then some (i + 1) else none

/-- The download while-loop: fetch the page at the current link, append its
positive-priced cleaned rows, checkpoint atomically, follow the
continuation link.  `seen` is the loop-detection set, the budget counts
remaining iterations before interruption. -/
def dlLoop (pages : List (List InRow)) :
    Option Nat → List Nat → Nat → Nat → DlState → Nat → DlState
  | none, _, _, _, st, _ => st
  | some _, _, _, _, st, 0 => st
  | some i, seen, total, pageNo, st, b + 1 =>
      if seen.contains i then st
      else
        let kept := pageKeptRows (pages.getD i [])
        let nl := nextLinkOf pages.length i
        let total1 := total + kept.length
        let st1 : DlState :=
          { part := st.part ++ kept,
            checkpoint := some { nextLink := nl, rowsWritten := total1, pageNo := pageNo + 1 } }
        dlLoop pages nl (i :: seen) total1 (pageNo + 1) st1 b

/-- Resumption start link: `cp.get("next_link") or base` (a null link falls
back to the base URL, i.e. page 0). -/
def startUrl (st : DlState) : Option Nat :=
  match st.checkpoint with
  | some cp =>
      match cp.nextLink with
      | some i => some i
      | none => some 0
  | none => some 0

/-- One `retail_download_to_csv` invocation, interrupted after `budget`
pages (counters resume from the checkpoint). -/
def runDownload (pages : List (List InRow)) (st : DlState) (budget : Nat) : DlState :=
  dlLoop pages (startUrl st) []
    (match st.checkpoint with | some cp => cp.rowsWritten | none => 0)
    (match st.checkpoint with | some cp => cp.pageNo | none => 0)
    st budget

/-- Successful completion: atomic rename and checkpoint removal. -/
def finalizeDownload (st : DlState) : DlState := { part := st.part, checkpoint := none }

/-- An uninterrupted (or resumed-to-completion) invocation. -/
def completedDownload (pages : List (List InRow)) (st : DlState) : DlState :=
  finalizeDownload (runDownload pages st (pages.length + 1))

end AzureBom

namespace AzureBom

theorem contains_eq_false_of_lt {seen : List Nat} {i : Nat}
    (hseen : ∀ j ∈ seen, j < i) : seen.contains i = false := by
  rw [Bool.eq_false_iff]
  intro hc
  have hm : i ∈ seen := by simpa using hc
  exact lt_irrefl i (hseen i hm)

theorem dlLoop_none (pages : List (List InRow)) (seen : List Nat) (total pageNo : Nat)
    (st : DlState) (b : Nat) : dlLoop pages none seen total pageNo st b = st := by
  cases b <;> rfl

theorem dlLoop_step (pages : List (List InRow)) (i : Nat) (seen : List Nat)
    (total pageNo : Nat) (st : DlState) (b : Nat) (hni : i ∉ seen) :
    dlLoop pages (some i) seen total pageNo st (b + 1)
      = dlLoop pages (nextLinkOf pages.length i) (i :: seen)
          (total + (pageKeptRows (pages.getD i [])).length) (pageNo + 1)
          { part := st.part ++ pageKeptRows (pages.getD i []),
            checkpoint := some
              { nextLink := nextLinkOf pages.length i,
                rowsWritten := total + (pageKeptRows (pages.getD i [])).length,
                pageNo := pageNo + 1 } } b := by
  simp only [dlLoop]
  rw [if_neg (by simpa using hni)]

theorem dlLoop_complete (pages : List (List InRow)) :
    ∀ (b i : Nat) (seen : List Nat) (total pageNo : Nat) (st : DlState),
      i < pages.length → (∀ j ∈ seen, j < i) → pages.length - i ≤ b →
      (dlLoop pages (some i) seen total pageNo st b).part
        = st.part ++ ((pages.drop i).map pageKeptRows).flatten := by
  intro b
  induction b with
  | zero =>
      intro i seen total pageNo st hi hseen hb
      omega
  | succ b ih =>
      intro i seen total pageNo st hi hseen hb
      have hni : i ∉ seen := fun h => lt_irrefl i (hseen i h)
      have hdrop := List.drop_eq_getElem_cons hi
      have hgetD : pages.getD i [] = pages[i] := List.getD_eq_getElem pages [] hi
      rw [dlLoop_step pages i seen total pageNo st b hni]
      by_cases hnl : i + 1 < pages.length
      · have hnle : nextLinkOf pages.length i = some (i + 1) := by
          simp [nextLinkOf, hnl]
        rw [hnle]
        rw [ih (i + 1) (i :: seen) _ _ _ hnl
          (by
            intro j hj
            rcases List.mem_cons.mp hj with rfl | hj2
            · omega
            · exact Nat.lt_trans (hseen j hj2) (Nat.lt_succ_self i))
          (by omega)]
        rw [hgetD, hdrop, List.map_cons, List.flatten_cons, List.append_assoc]
      · have hnle : nextLinkOf pages.length i = none := by
          simp [nextLinkOf, hnl]
        rw [hnle, dlLoop_none]
        have hdrop2 : pages.drop (i + 1) = [] := List.drop_eq_nil_of_le (by omega)
        rw [hgetD, hdrop, hdrop2, List.map_cons, List.map_nil, List.flatten_cons,
          List.flatten_nil, List.append_nil]

theorem dlLoop_partial (pages : List (List InRow)) :
    ∀ (b : Nat), 1 ≤ b → ∀ (i : Nat) (seen : List Nat) (total pageNo : Nat) (st : DlState),
      i + b < pages.length → (∀ j ∈ seen, j < i) →
      ∃ total2 page2,
        dlLoop pages (some i) seen total pageNo st b
          = { part := st.part ++ (((pages.drop i).take b).map pageKeptRows).flatten,
              checkpoint := some
                { nextLink := some (i + b), rowsWritten := total2, pageNo := page2 } } := by
  intro b
  induction b with
  | zero => intro h; omega
  | succ b ih =>
      intro _ i seen total pageNo st hib hseen
      have hi : i < pages.length := by omega
      have hni : i ∉ seen := fun h => lt_irrefl i (hseen i h)
      have hnl : i + 1 < pages.length := by omega
      have hnle : nextLinkOf pages.length i = some (i + 1) := by simp [nextLinkOf, hnl]
      have hdrop := List.drop_eq_getElem_cons hi
      have hgetD : pages.getD i [] = pages[i] := List.getD_eq_getElem pages [] hi
      rw [dlLoop_step pages i seen total pageNo st b hni, hnle]
      cases b with
      | zero =>
          refine ⟨total + (pageKeptRows (pages.getD i [])).length, pageNo + 1, ?_⟩
          have h0 : dlLoop pages (some (i + 1)) (i :: seen)
              (total + (pageKeptRows (pages.getD i [])).length) (pageNo + 1)
              { part := st.part ++ pageKeptRows (pages.getD i []),
                checkpoint := some
                  { nextLink := some (i + 1),
                    rowsWritten := total + (pageKeptRows (pages.getD i [])).length,
                    pageNo := pageNo + 1 } } 0
              = { part := st.part ++ pageKeptRows (pages.getD i []),
                  checkpoint := some
                    { nextLink := some (i + 1),
                      rowsWritten := total + (pageKeptRows (pages.getD i [])).length,
                      pageNo := pageNo + 1 } } := rfl
          rw [h0, hgetD, hdrop, List.take_succ_cons, List.take_zero, List.map_cons,
            List.map_nil, List.flatten_cons, List.flatten_nil, List.append_nil]
      | succ b2 =>
          obtain ⟨t2, p2, heq⟩ := ih (by omega) (i + 1) (i :: seen)
            (total + (pageKeptRows (pages.getD i [])).length) (pageNo + 1)
            { part := st.part ++ pageKeptRows (pages.getD i []),
              checkpoint := some
                { nextLink := some (i + 1),
                  rowsWritten := total + (pageKeptRows (pages.getD i [])).length,
                  pageNo := pageNo + 1 } }
            (by omega)
            (by
              intro j hj
              rcases List.mem_cons.mp hj with rfl | hj2
              · omega
              · exact Nat.lt_trans (hseen j hj2) (Nat.lt_succ_self i))
          refine ⟨t2, p2, ?_⟩
          have harith : i + 1 + (b2 + 1) = i + (b2 + 1 + 1) := by omega
          rw [heq, harith, hgetD, hdrop, List.take_succ_cons, List.map_cons,
            List.flatten_cons, List.append_assoc]

end AzureBom

namespace AzureBom

attribute [local semireducible] Rat.add Rat.mul Rat.inv Rat.sub

/-- A one-page catalog whose single item has price 1. -/
def cexPages : List (List InRow) :=
  [[[("serviceName", Val.vStr "S"), ("retailPrice", Val.vStr "1")]]]

/-- Claim C4, counterexample: interrupting after the final page is fully
checkpointed (its checkpoint holds a null continuation link) and calling
the downloader again re-starts from the base URL and appends every row a
second time: the resumed run persists 2 rows where an uninterrupted run
persists 1. -/
theorem claim_C4_counterexample :
    (runDownload cexPages freshState 1).checkpoint.isSome = true ∧
    ((completedDownload cexPages (runDownload cexPages freshState 1)).part).length = 2 ∧
    ((completedDownload cexPages freshState).part).length = 1 := by
  refine ⟨rfl, by decide, by decide⟩

/-- Claim C4 (amended): interruption after any fully checkpointed page
other than the final one — that is, while the checkpoint still holds a
non-null continuation link — followed by a second call produces exactly
the rows of an uninterrupted run, duplicating none of them; the
resumption starts from the saved continuation link.  (When the
checkpoint's link is null, resumption restarts from the base URL and
duplicates rows — see the counterexample.) -/
theorem claim_C4 (pages : List (List InRow)) (k : Nat) (hk : k + 1 < pages.length) :
    (completedDownload pages (runDownload pages freshState (k + 1))).part
      = (completedDownload pages freshState).part
    ∧ ∀ r : CRow,
        ((completedDownload pages (runDownload pages freshState (k + 1))).part.count r
          = (completedDownload pages freshState).part.count r) := by
  have hlen : 0 < pages.length := by omega
  obtain ⟨t2, p2, hint⟩ := dlLoop_partial pages (k + 1) (by omega) 0 [] 0 0 freshState
    (by omega) (by intro j hj; cases hj)
  have hz : (0 : Nat) + (k + 1) = k + 1 := Nat.zero_add _
  rw [hz] at hint
  have hintr : runDownload pages freshState (k + 1)
      = { part := (((pages.drop 0).take (k + 1)).map pageKeptRows).flatten,
          checkpoint := some { nextLink := some (k + 1), rowsWritten := t2, pageNo := p2 } } := by
    show dlLoop pages (some 0) [] 0 0 freshState (k + 1) = _
    rw [hint]
    rfl
  have hmain : (completedDownload pages (runDownload pages freshState (k + 1))).part
      = (completedDownload pages freshState).part := by
    rw [hintr]
    have h1 : (completedDownload pages
        { part := (((pages.drop 0).take (k + 1)).map pageKeptRows).flatten,
          checkpoint := some { nextLink := some (k + 1), rowsWritten := t2, pageNo := p2 } }).part
        = (dlLoop pages (some (k + 1)) [] t2 p2
            { part := (((pages.drop 0).take (k + 1)).map pageKeptRows).flatten,
              checkpoint := some { nextLink := some (k + 1), rowsWritten := t2, pageNo := p2 } }
            (pages.length + 1)).part := rfl
    have h2 : (completedDownload pages freshState).part
        = (dlLoop pages (some 0) [] 0 0 freshState (pages.length + 1)).part := rfl
    rw [h1, h2]
    rw [dlLoop_complete pages (pages.length + 1) (k + 1) [] t2 p2 _ hk
      (by intro j hj; cases hj) (by omega)]
    rw [dlLoop_complete pages (pages.length + 1) 0 [] 0 0 freshState hlen
      (by intro j hj; cases hj) (by omega)]
    show (((pages.drop 0).take (k + 1)).map pageKeptRows).flatten
        ++ ((pages.drop (k + 1)).map pageKeptRows).flatten
      = [] ++ ((pages.drop 0).map pageKeptRows).flatten
    rw [List.nil_append, List.drop_zero]
    rw [← List.flatten_append, ← List.map_append, List.take_append_drop]
  exact ⟨hmain, fun r => by rw [hmain]⟩

/-- A three-page catalog used to instantiate the amended claim. -/
def pagesThree : List (List InRow) :=
  [[[("serviceName", Val.vStr "A"), ("retailPrice", Val.vStr "1")]],
   [[("serviceName", Val.vStr "B"), ("retailPrice", Val.vStr "2")]],
   [[("serviceName", Val.vStr "C"), ("retailPrice", Val.vStr "3")]]]

/-- Witness for claim C4: on a concrete three-page catalog, interrupting
after the first fully checkpointed page and resuming yields exactly the
rows of an uninterrupted run. -/
theorem claim_C4_witness :
    (completedDownload pagesThree (runDownload pagesThree freshState 1)).part
      = (completedDownload pagesThree freshState).part :=
  (claim_C4 pagesThree 0 (by decide)).1

end AzureBom

namespace AzureBom

attribute [local semireducible] Rat.add Rat.mul Rat.inv Rat.sub

/-- Claim C6: a cleaned row of a downloaded page is written to the cache
iff its retailPrice-or-unitPrice chain parses to a value greater than
zero (`_has_positive_price`), and every state reachable by the download
loop from a state whose file respects this invariant contains only
positive-priced rows — so no row of the completed cache has a
non-positive price. -/
theorem claim_C6 :
    (∀ (items : List InRow) (r : CRow),
      r ∈ pageKeptRows items ↔ (r ∈ cleanRows items ∧ hasPositivePriceC r = true)) ∧
    (∀ r : CRow, hasPositivePriceC r = true ↔
      decGtZero (decimalD (PyVal.pStr (pyOrSD (pyOrS r.retailPrice r.unitPrice) "0")))
        = Except.ok true) ∧
    (∀ (pages : List (List InRow)) (url : Option Nat) (seen : List Nat)
        (total pageNo : Nat) (st : DlState) (b : Nat),
      (∀ r ∈ st.part, hasPositivePriceC r = true) →
      ∀ r ∈ (dlLoop pages url seen total pageNo st b).part, hasPositivePriceC r = true) := by
  refine ⟨?_, ?_, ?_⟩
  · intro items r
    exact List.mem_filter
  · intro r
    cases he : decGtZero (decimalD (PyVal.pStr (pyOrSD (pyOrS r.retailPrice r.unitPrice) "0"))) with
    | ok b =>
        simp only [hasPositivePriceC, he]
        constructor
        · intro hb; rw [hb]
        · intro hb; exact Except.ok.inj hb
    | error e =>
        simp only [hasPositivePriceC, he]
        constructor
        · intro hb; cases hb
        · intro hb; cases hb
  · intro pages url seen total pageNo st b
    induction b generalizing url seen total pageNo st with
    | zero =>
        intro hinv r hr
        cases url with
        | none => exact hinv r hr
        | some i => exact hinv r hr
    | succ b ih =>
        intro hinv r hr
        cases url with
        | none =>
            rw [dlLoop_none] at hr
            exact hinv r hr
        | some i =>
            by_cases hmem : i ∈ seen
            · have hstop : dlLoop pages (some i) seen total pageNo st (b + 1) = st := by
                simp only [dlLoop]
                rw [if_pos (by simpa using hmem)]
              rw [hstop] at hr
              exact hinv r hr
            · rw [dlLoop_step pages i seen total pageNo st b hmem] at hr
              refine ih _ _ _ _ _ ?_ r hr
              intro r2 hr2
              rcases List.mem_append.mp hr2 with h2 | h2
              · exact hinv r2 h2
              · exact (List.mem_filter.mp h2).2

/-- Witness for claim C6: the invariant applied to a concrete completed
run over the one-page catalog, showing the persisted row is
positive-priced. -/
theorem claim_C6_witness :
    hasPositivePriceC
      (cleanRowToAllowed [("serviceName", Val.vStr "S"), ("retailPrice", Val.vStr "1")]) = true :=
  claim_C6.2.2 cexPages (some 0) [] 0 0 freshState 2
    (by intro r hr; cases hr) _ (by decide)

end AzureBom

namespace AzureBom

/-! ## BOM evaluation loop (`price_model.py`, `run_model`) and the raising
legacy handler (`handlers/vm.py`, `price_vm`)

A handler invocation either returns `(cost, description)` or raises; the
`try/except` of `run_model` maps a raised exception `e` to the line
`(Decimal(0), "Error: " + str(e))` and the loop continues.  `price_vm` is
embedded with its retail fetch abstracted as a function from the filter
expression to the returned items.
-/

/-- The `try/except` around one handler call in `run_model`. -/
def componentLine (o : Except String (ℚ × String)) : ℚ × String :=
  match o with
  | Except.ok cd => cd
  | Except.error e => (0, "Error: " ++ e)

/-- A workload's accumulated total (`wl_total`). -/
def workloadCosts (outcomes : List (Except String (ℚ × String))) : ℚ :=
  (outcomes.map (fun o => (componentLine o).1)).sum

/-- The printed per-component audit descriptions. -/
def auditLines (outcomes : List (Except String (ℚ × String))) : List String :=
  outcomes.map (fun o => (componentLine o).2)

/-- `apply_optimisations(total, assumptions)` with the configured coverage
fractions. -/
def applyOptimisations (total spCov riCov : ℚ) : ℚ :=
  let spDisc := decimalQ "0.18"
  let riDisc := decimalQ "0.35"
  let riSlice := total * riCov * (1 - riDisc)
  let spSlice := total * (1 - riCov) * spCov * (1 - spDisc)
  let paygSlice := total * (1 - riCov) * (1 - spCov)
  riSlice + spSlice + paygSlice

/-- The grand total printed at the end of `run_model`. -/
def runModelTotals (workloads : List (List (Except String (ℚ × String))))
    (spCov riCov : ℚ) : ℚ :=
  (workloads.map (fun os => applyOptimisations (workloadCosts os) spCov riCov)).sum

/-- `_fallback_vm_items(sku, arm_region, currency)`. -/
def fallbackVmItems (fetch : String → List Row) (sku arm : String) : List Row :=
  let filt := "serviceName eq " ++ sq ++ "Virtual Machines" ++ sq ++
    " and armRegionName eq " ++ sq ++ arm ++ sq ++
    " and priceType eq " ++ sq ++ "Consumption" ++ sq
  let items := fetch filt
  if items = [] then []
  else
    let skuL := pyLower sku
    let narrowed := items.filter (fun i =>
      strContainsSub (pyLower (i.armSkuName.getD "")) skuL ||
      strContainsSub (pyLower (i.skuName.getD "")) skuL ||
      strContainsSub (pyLower (i.productName.getD "")) skuL ||
      strContainsSub (pyLower (i.meterName.getD "")) skuL)
    if narrowed = [] then items else narrowed

/-- `_pick_vm_item(items, os_filter, prefer_uom)`. -/
def pickVmItem (items : List Row) (osFilter preferUom : String) : Option Row :=
  if items = [] then none
  else
    let osL := pyLower osFilter
    let hasOs := fun (i : Row) =>
      strContainsSub (pyLower (i.meterName.getD "")) osL ||
      strContainsSub (pyLower (i.productName.getD "")) osL ||
      strContainsSub (pyLower (i.skuName.getD "")) osL
    match items.find? (fun i =>
      (i.unitOfMeasure == some preferUom) && hasOs i && decide (0 < i.retailPrice.getD 0)) with
    | some i => some i
    | none =>
        match items.find? (fun i => hasOs i && decide (0 < i.retailPrice.getD 0)) with
        | some i => some i
        | none =>
            match items.find? (fun i =>
              (i.unitOfMeasure == some preferUom) && decide (0 < i.retailPrice.getD 0)) with
            | some i => some i
            | none =>
                match items.find? (fun i => decide (0 < i.retailPrice.getD 0)) with
                | some i => some i
                | none => items.head?

/-- `price_vm(component, region, currency, ent_prices)`; a raised
`RuntimeError` becomes `Except.error` with the same message. -/
def priceVm (ent : EntDict) (fetch : String → List Row) (sku osStr region : String)
    (hours count : ℚ) : Except String (ℚ × String) :=
  let osFilter := if strStartsWith (pyLower osStr) "lin" then "Linux" else "Windows"
  match enterpriseLookup ent "Virtual Machines" sku region "1 Hour" with
  | some entp =>
      Except.ok (entp * hours * count,
        "VM " ++ sku ++ " x" ++ showQ count ++ " @ " ++ showQ entp ++ "/hr")
  | none =>
      let arm := armRegion region
      let filt := "serviceName eq " ++ sq ++ "Virtual Machines" ++ sq ++
        " and armSkuName eq " ++ sq ++ sku ++ sq ++
        " and armRegionName eq " ++ sq ++ arm ++ sq ++
        " and priceType eq " ++ sq ++ "Consumption" ++ sq
      let items0 := fetch filt
      let items := if items0 = [] then fallbackVmItems fetch sku arm else items0
      match pickVmItem items osFilter "1 Hour" with
      | none => Except.error ("No retail price for VM " ++ sku ++ " (region=" ++ arm ++ ")")
      | some row =>
          let unit := row.retailPrice.getD 0
          Except.ok (unit * hours * count,
            "VM " ++ sku ++ " x" ++ showQ count ++ " @ " ++ showQ unit ++ "/hr")

/-- Claim C8: the BOM evaluation always completes — a component whose
handler raises contributes zero cost and an audit line carrying
"Error: " plus the message, the remaining components are still evaluated
and summed, the legacy `price_vm` raises exactly the "No retail price"
error when the negotiated index misses and no retail row matches, and the
grand total is a total function of the per-workload outcomes. -/
theorem claim_C8 :
    (∀ (pre post : List (Except String (ℚ × String))) (e : String),
      workloadCosts (pre ++ Except.error e :: post) = workloadCosts pre + workloadCosts post ∧
      auditLines (pre ++ Except.error e :: post)
        = auditLines pre ++ ("Error: " ++ e) :: auditLines post) ∧
    (∀ e : String, componentLine (Except.error e) = (0, "Error: " ++ e)) ∧
    (∀ (ent : EntDict) (sku osStr region : String) (hours count : ℚ),
      enterpriseLookup ent "Virtual Machines" sku region "1 Hour" = none →
      priceVm ent fetchNone sku osStr region hours count
        = Except.error ("No retail price for VM " ++ sku ++ " (region=" ++ armRegion region ++ ")")) ∧
    (∀ (workloads : List (List (Except String (ℚ × String)))) (spCov riCov : ℚ),
      runModelTotals workloads spCov riCov
        = (workloads.map (fun os => applyOptimisations (workloadCosts os) spCov riCov)).sum) := by
  refine ⟨?_, fun e => rfl, ?_, fun workloads spCov riCov => rfl⟩
  · intro pre post e
    constructor
    · simp [workloadCosts, componentLine, List.map_append, List.sum_append]
    · simp [auditLines, componentLine, List.map_append]
  · intro ent sku osStr region hours count h
    simp only [priceVm, h]
    rfl

/-- Witness for claim C8: the hypothesised conjuncts applied at concrete
inputs — a workload with a failing middle component, and `price_vm` on an
empty negotiated index with an empty retail catalog. -/
theorem claim_C8_witness :
    workloadCosts [Except.ok ((5 : ℚ), "a"), Except.error "boom", Except.ok ((7 : ℚ), "b")]
      = workloadCosts [Except.ok ((5 : ℚ), "a")] + workloadCosts [Except.ok ((7 : ℚ), "b")] ∧
    priceVm [] fetchNone "Standard_D4s_v5" "linux" "Australia East" 730 1
      = Except.error ("No retail price for VM Standard_D4s_v5 (region="
          ++ armRegion "Australia East" ++ ")") := by
  constructor
  · exact (claim_C8.1 [Except.ok ((5 : ℚ), "a")] [Except.ok ((7 : ℚ), "b")] "boom").1
  · exact claim_C8.2.2.1 [] "Standard_D4s_v5" "linux" "Australia East" 730 1 (by decide)

end AzureBom
